import Mathlib

/- Verification development for the trader-hub technical-analysis core.

   The definitions below are a shallow embedding of the two algorithmic
   modules of the repository:
     * `api/src/index.ts`   — indicator library, pivot detector, pattern
                              scanners and divergence detector;
     * `api/src/signals.ts` — the signal synthesizer (`buildSignals`).

   Conventions of the embedding:
     * JavaScript numbers are modelled by `ℚ` (exact arithmetic).  Where a
       computation can actually produce the IEEE special values `NaN` /
       `±Infinity` and a claim depends on it (the `sma` guard behaviour),
       we use the symbolic type `JSNum` with the JS special-value rules.
     * `null` / absent values are modelled by `Option`; where JavaScript
       distinguishes `undefined` from `null` in a behaviour-relevant way
       (the `n()` coercion used on moving-average inputs, for which
       `Number(null) = 0` while `Number(undefined) = NaN`), we use the
       three-valued `JVal`.
     * Arrays are `List`s; `arr.slice(-k)` is `sliceLast k`;
       out-of-range reads (which yield `undefined` in JS) are `Option`
       reads via `jsGet`.
-/

namespace TraderHub

/-! ## JS numeric model (used where IEEE special values are observable) -/

/-- A JavaScript number: a finite rational or one of the special values
`NaN`, `Infinity`, `-Infinity`. -/
inductive JSNum where
  | num (q : ℚ)
  | nan
  | inf
  | ninf
deriving DecidableEq

/-- JS negation. -/
def jsNeg : JSNum → JSNum
  | .num q => .num (-q)
  | .nan => .nan
  | .inf => .ninf
  | .ninf => .inf

/-- JS addition on `JSNum` (exact on finite values). -/
def jsAdd : JSNum → JSNum → JSNum
  | .nan, _ => .nan
  | _, .nan => .nan
  | .num a, .num b => .num (a + b)
  | .num _, .inf => .inf
  | .num _, .ninf => .ninf
  | .inf, .num _ => .inf
  | .ninf, .num _ => .ninf
  | .inf, .inf => .inf
  | .ninf, .ninf => .ninf
  | .inf, .ninf => .nan
  | .ninf, .inf => .nan

/-- JS subtraction. -/
def jsSub (a b : JSNum) : JSNum := jsAdd a (jsNeg b)

/-- `a - v` where `v` came from an array read that may be out of range:
in JS, `x - undefined` is `NaN`. -/
def jsSubIdx (a : JSNum) (v : Option ℚ) : JSNum :=
  match v with
  | some q => jsSub a (.num q)
  | none => .nan

/-- JS division of a `JSNum` by an integer (the only divisor shape used by
`sma`): division by `0` follows the JS `+0` rules. -/
def jsDivInt (a : JSNum) (p : ℤ) : JSNum :=
  match a with
  | .nan => .nan
  | .inf => if p < 0 then .ninf else .inf
  | .ninf => if p < 0 then .inf else .ninf
  | .num q =>
      if p = 0 then (if q = 0 then .nan else if 0 < q then .inf else .ninf)
      else .num (q / p)

/-- Read `l[k]` as JS does: out-of-range (including negative) indices give
`undefined`, modelled as `none`. -/
def jsIdx (l : List ℚ) (k : ℤ) : Option ℚ :=
  if k < 0 then none else l[k.toNat]?

/-- `l.slice(-k)`: the last `k` elements. -/
def sliceLast {α : Type _} (k : ℕ) (l : List α) : List α :=
  l.drop (l.length - k)

/-! ## `api/src/index.ts` — indicator library -/

/-- Loop body of `sma` (source `index.ts`, `function sma`): running sum,
subtracting the element that leaves the window, emitting `sum / period`
once `i >= period - 1` and `null` before that.  The period is an integer
so that the behaviour for `period ≤ 0` is expressible. -/
def smaGo (values : List ℚ) (period : ℤ) : ℕ → JSNum → List ℚ → List (Option JSNum)
  | _, _, [] => []
  | i, sum, v :: rest =>
      let sum1 := jsAdd sum (.num v)
      let sum2 := if period ≤ (i : ℤ) then jsSubIdx sum1 (jsIdx values ((i : ℤ) - period)) else sum1
      let entry := if period - 1 ≤ (i : ℤ) then some (jsDivInt sum2 period) else none
      entry :: smaGo values period (i + 1) sum2 rest

/-- `sma(values, period)` from `index.ts`: the loop walks the array once
(the third `smaGo` argument is `values.drop i`, so the head processed at
step `i` is `values[i]`). -/
def sma (values : List ℚ) (period : ℤ) : List (Option JSNum) :=
  smaGo values period 0 (.num 0) values

/-- `100 - 100/(1+RS)` with `RS = gain/loss`, and `RS` treated as infinite
when `loss === 0` (in the source `rs = Infinity` and
`100 - 100/(1+Infinity) = 100`). -/
def rsiVal (gain loss : ℚ) : ℚ :=
  if loss = 0 then 100 else 100 - 100 / (1 + gain / loss)

/-- One Wilder smoothing step of `rsiWilder`'s main loop:
`gain = (gain*(period-1) + g)/period`, `loss = (loss*(period-1) + l)/period`
with `g = ch > 0 ? ch : 0` and `l = ch < 0 ? -ch : 0`. -/
def rsiStep (period : ℕ) (gl : ℚ × ℚ) (ch : ℚ) : ℚ × ℚ :=
  ((gl.1 * ((period : ℚ) - 1) + (if 0 < ch then ch else 0)) / period,
   (gl.2 * ((period : ℚ) - 1) + (if ch < 0 then -ch else 0)) / period)

/-- The tail of the RSI output series: one value per remaining close-to-close
change, each produced from the Wilder-smoothed state. -/
def rsiTail (period : ℕ) : ℚ × ℚ → List ℚ → List ℚ
  | _, [] => []
  | gl, ch :: rest =>
      let gl2 := rsiStep period gl ch
      rsiVal gl2.1 gl2.2 :: rsiTail period gl2 rest

/-- `rsiWilder(closes, period)` from `index.ts`: all-`null` when fewer than
`period+1` closes; otherwise `null` for the first `period` indices, the
seeded value at index `period` (simple average of positive / negative
changes over the first `period` changes) and Wilder-smoothed values after
it. -/
def rsiWilder (closes : List ℚ) (period : ℕ) : List (Option ℚ) :=
  if closes.length < period + 1 then List.replicate closes.length none
  else
    let diffs := List.zipWith (fun a b => a - b) closes.tail closes
    let seed := (diffs.take period).foldl
      (fun gl ch => if 0 ≤ ch then (gl.1 + ch, gl.2) else (gl.1, gl.2 - ch))
      ((0 : ℚ), (0 : ℚ))
    let g0 := seed.1 / period
    let l0 := seed.2 / period
    List.replicate period none ++
      some (rsiVal g0 l0) :: (rsiTail period (g0, l0) (diffs.drop period)).map some

/-! ## `api/src/index.ts` — bars, pivot detector, pattern scanners -/

/-- A daily bar as used by `index.ts` (`type OHLCV`). -/
structure OHLCV where
  date : String
  open' : ℚ
  high : ℚ
  low : ℚ
  close : ℚ
  volume : ℚ
deriving DecidableEq, Inhabited

/-- In-range list read used where the source loop bounds guarantee the
index is valid (`bars[i]` inside a bounds-checked `for`). -/
def getBar (bars : List OHLCV) (i : ℕ) : OHLCV :=
  bars.getD i default

/-- A pivot as returned by `pivots`: `{ i, date, price }`. -/
structure PivotPt where
  i : ℕ
  date : String
  price : ℚ
deriving DecidableEq

/-- The inner loop of `pivots` for lows: no bar in
`[i-lookback, i+lookback]` other than `i` has `low ≤ bars[i].low`
(the source sets `isLow = false` on `bars[k].low <= lo`).  Only evaluated
at `lookback ≤ i`, where the whole window is in range. -/
def isPivotLow (bars : List OHLCV) (lookback i : ℕ) : Bool :=
  (List.range' (i - lookback) (2 * lookback + 1)).all fun k =>
    decide (k = i) || decide ((getBar bars i).low < (getBar bars k).low)

/-- The inner loop of `pivots` for highs (strict local maximum of `high`). -/
def isPivotHigh (bars : List OHLCV) (lookback i : ℕ) : Bool :=
  (List.range' (i - lookback) (2 * lookback + 1)).all fun k =>
    decide (k = i) || decide ((getBar bars k).high < (getBar bars i).high)

/-- The index range of the `pivots` loop:
`for (let i = lookback; i < bars.length - lookback; i++)`. -/
def pivotRange (len lookback : ℕ) : List ℕ :=
  List.range' lookback ((len - lookback) - lookback)

/-- `pivots(bars, lookback)` from `index.ts`: the ordered lists of swing
lows and swing highs. -/
def pivots (bars : List OHLCV) (lookback : ℕ) : List PivotPt × List PivotPt :=
  ((pivotRange bars.length lookback).filterMap fun i =>
      if isPivotLow bars lookback i then
        some ⟨i, (getBar bars i).date, (getBar bars i).low⟩
      else none,
   (pivotRange bars.length lookback).filterMap fun i =>
      if isPivotHigh bars lookback i then
        some ⟨i, (getBar bars i).date, (getBar bars i).high⟩
      else none)

/-- Gap fill status. -/
inductive GapStatus where
  | unfilled
  | partial'
  | filled
deriving DecidableEq

/-- Gap direction. -/
inductive GapType where
  | gap_up
  | gap_down
deriving DecidableEq

/-- A gap record as produced by `detectGaps`. -/
structure Gap where
  date : String
  type : GapType
  prev_close : ℚ
  open' : ℚ
  zone_low : ℚ
  zone_high : ℚ
  size_pct : ℚ
  status : GapStatus
deriving DecidableEq

/-- `const tradedLow = b.low <= zone_high && b.high >= zone_low` of
`detectGaps`. -/
def tradedLow (zl zh : ℚ) (b : OHLCV) : Bool :=
  decide (b.low ≤ zh) && decide (zl ≤ b.high)

/-- `const fullyFilled = gapUp ? b.low <= zone_low : b.high >= zone_high`
of `detectGaps`. -/
def fullyFilled (gapUp : Bool) (zl zh : ℚ) (b : OHLCV) : Bool :=
  if gapUp then decide (b.low ≤ zl) else decide (zh ≤ b.high)

/-- The forward fill scan of `detectGaps` over the window bars (the slice
`bars[i..min(len-1, i+lookForwardBars)]`): `partial` once a bar overlaps
the zone, `filled` (stopping) once a bar fully crosses it. -/
def gapScan (gapUp : Bool) (zl zh : ℚ) : List OHLCV → GapStatus → GapStatus
  | [], st => st
  | b :: rest, st =>
      let st1 := if tradedLow zl zh b then GapStatus.partial' else st
      if fullyFilled gapUp zl zh b then GapStatus.filled
      else gapScan gapUp zl zh rest st1

/-- The body of the `detectGaps` loop at index `i ≥ 1`: `none` when no gap
(or an empty zone) is found, otherwise the gap record with its fill
status. -/
def gapAt (bars : List OHLCV) (lookForwardBars : ℕ) (i : ℕ) : Option Gap :=
  if i = 0 then none else
  let prev := getBar bars (i - 1)
  let cur := getBar bars i
  let gapUp := decide (prev.high < cur.open')
  let gapDown := decide (cur.open' < prev.low)
  if gapUp = false ∧ gapDown = false then none else
  let zone_low := if gapUp then prev.high else cur.high
  let zone_high := if gapUp then cur.low else prev.low
  if zone_high ≤ zone_low then none else
  let size_pct := |cur.open' - prev.close| / prev.close
  let window := (bars.drop i).take (min (bars.length - 1 - i) lookForwardBars + 1)
  let status := gapScan gapUp zone_low zone_high window GapStatus.unfilled
  some ⟨cur.date, if gapUp then GapType.gap_up else GapType.gap_down,
        prev.close, cur.open', zone_low, zone_high, size_pct, status⟩

/-- `detectGaps(bars, lookForwardBars)` from `index.ts`; the result is
capped to the last 10 gaps (`gaps.slice(-10)`). -/
def detectGaps (bars : List OHLCV) (lookForwardBars : ℕ) : List Gap :=
  sliceLast 10 ((List.range bars.length).filterMap (gapAt bars lookForwardBars))

/-- FVG direction. -/
inductive FVGType where
  | bullish
  | bearish
deriving DecidableEq

/-- A fair-value-gap record as produced by `detectFVG`. -/
structure FVGRec where
  created_date : String
  type : FVGType
  zone_low : ℚ
  zone_high : ℚ
  rebalanced : Bool
deriving DecidableEq

/-- The forward rebalancement scan of `detectFVG`: true iff some bar of the
window overlaps the zone. -/
def fvgRebalanced (zl zh : ℚ) (window : List OHLCV) : Bool :=
  window.any fun b => decide (b.low ≤ zh) && decide (zl ≤ b.high)

/-- The body of the `detectFVG` loop at index `i ≥ 2`: zero, one or two
records (the source tests the bullish and the bearish shape
independently). -/
def fvgAt (bars : List OHLCV) (lookForward : ℕ) (i : ℕ) : List FVGRec :=
  if i < 2 then [] else
  let c1 := getBar bars (i - 2)
  let c3 := getBar bars i
  let window := (bars.drop i).take (min (bars.length - 1 - i) lookForward + 1)
  (if c1.high < c3.low then
      [⟨c3.date, FVGType.bullish, c1.high, c3.low, fvgRebalanced c1.high c3.low window⟩]
    else []) ++
  (if c3.high < c1.low then
      [⟨c3.date, FVGType.bearish, c3.high, c1.low, fvgRebalanced c3.high c1.low window⟩]
    else [])

/-- `detectFVG(bars, lookForward)` from `index.ts`; capped to the last 12
records (`out.slice(-12)`). -/
def detectFVG (bars : List OHLCV) (lookForward : ℕ) : List FVGRec :=
  sliceLast 12 ((List.range bars.length).flatMap (fvgAt bars lookForward))

/-- Divergence verdict type. -/
inductive DivType where
  | none'
  | bullish
  | bearish
deriving DecidableEq

/-- The `RSIDiv` record of `index.ts`. -/
structure RSIDiv where
  type : DivType
  strength : ℕ
  pivot_dates : List String
deriving DecidableEq

/-- JS truthiness test applied to an indexed RSI read
(`rsi[i]` may be out of range → `undefined`, `null`, or a number; the
source guard `rA && rB` rejects `undefined`, `null` and `0`). -/
def truthyRsi (x : Option (Option ℚ)) : Option ℚ :=
  match x with
  | some (some q) => if q = 0 then none else some q
  | _ => none

/-- `detectRSIDivergence(bars, rsi, lookback)` from `index.ts`: compares the
two most recent swing lows (and highs) with the RSI values at those
indices; strength starts at 1, +1 for an RSI delta ≥ 5, +1 when the second
pivot is within 20 bars of the series end; a qualifying bearish candidate
replaces the bullish verdict only when strictly stronger. -/
def detectRSIDivergence (bars : List OHLCV) (rsi : List (Option ℚ))
    (lookback : ℕ) : RSIDiv :=
  let p := pivots bars lookback
  let best :=
    match sliceLast 2 p.1 with
    | [a, b] =>
        match truthyRsi rsi[a.i]?, truthyRsi rsi[b.i]? with
        | some rA, some rB =>
            if b.price < a.price ∧ rA < rB then
              ⟨DivType.bullish,
               1 + (if 5 ≤ |rB - rA| then 1 else 0) +
                   (if bars.length - 1 - b.i ≤ 20 then 1 else 0),
               [a.date, b.date]⟩
            else (⟨DivType.none', 0, []⟩ : RSIDiv)
        | _, _ => ⟨DivType.none', 0, []⟩
    | _ => ⟨DivType.none', 0, []⟩
  match sliceLast 2 p.2 with
  | [a, b] =>
      match truthyRsi rsi[a.i]?, truthyRsi rsi[b.i]? with
      | some rA, some rB =>
          if a.price < b.price ∧ rB < rA then
            let strength := 1 + (if 5 ≤ |rB - rA| then 1 else 0) +
                (if bars.length - 1 - b.i ≤ 20 then 1 else 0)
            if best.strength < strength then ⟨DivType.bearish, strength, [a.date, b.date]⟩
            else best
          else best
      | _, _ => best
  | _ => best

/-! ## `api/src/signals.ts` — the signal synthesizer

Free-text advisory fields of a `Signal` (`trigger`, `action`,
`invalidation`) and the display metadata (`levels`, `meta`) are constant
functions of the same data that the structured fields below carry, and are
never read by the synthesis pipeline (whose sort key is the severity and
whose dedup key is `category:type:title`); they are elided from the
embedding.  Number formatting inside titles (`fmt`, i.e. `toFixed` /
`toLocaleString`) is modelled by keeping the formatted arguments as fields
of the structured `Title` type. -/

/-- A JS value as it arrives in an untyped numeric slot:
`undefined`, `null`, or a number. -/
inductive JVal where
  | undef
  | jnull
  | jnum (q : ℚ)
deriving DecidableEq

/-- The helper `n()` of `signals.ts`: `Number(x)` followed by a finiteness
check.  Note `Number(null) = 0` (finite!), while `Number(undefined)` is
`NaN`, so `n(null) = 0` and `n(undefined) = null`. -/
def jsN : JVal → Option ℚ
  | .undef => none
  | .jnull => some 0
  | .jnum q => some q

/-- A bar as used by `signals.ts` (`type Bar`): optional date fields and
`o/h/l/c/v` numbers. -/
structure SBar where
  t : Option String
  time : Option String
  date : Option String
  o : ℚ
  h : ℚ
  l : ℚ
  c : ℚ
  v : Option ℚ
deriving DecidableEq, Inhabited

/-- Signal severity. -/
inductive Severity where
  | high
  | med
  | low
  | info
deriving DecidableEq

/-- The severity rank used by `buildSignals`:
`{ high: 4, med: 3, low: 2, info: 1 }`. -/
def sevRank : Severity → ℕ
  | .high => 4
  | .med => 3
  | .low => 2
  | .info => 1

/-- Structured representation of the signal titles of `signals.ts`: one
constructor per title template, carrying the interpolated values. -/
inductive Title where
  | bullishEngulfing
  | bearishEngulfing
  | hammer
  | shootingStar
  | insideBar
  | outsideBar
  | rsiOversold (r : ℚ)
  | rsiOverbought (r : ℚ)
  | rsiWeak (r : ℚ)
  | rsiPositive (r : ℚ)
  | rsiDivergence (t : DivType)
  | fvg (side : FVGType) (lo hi : ℚ)
  | sweepHigh (p : ℚ)
  | sweepLow (p : ℚ)
  | failedReclaim
  | maCrossUp
  | maCrossDown
  | goldenCross
  | deathCross
  | nearSupport (p away : ℚ)
  | closestSupport (p : ℚ)
  | nearResistance (p away : ℚ)
  | closestResistance (p : ℚ)
deriving DecidableEq

/-- The unified signal record (structured core of `type Signal`). -/
structure Signal where
  id : String
  category : String
  type : String
  timeframe : String
  severity : Severity
  title : Title
deriving DecidableEq

/-- The deduplication key of `buildSignals`:
`` `${s.category}:${s.type}:${s.title}` `` (as a triple; the category and
type strings of the source contain no `:` separator, so the triple and the
joined string identify each other). -/
def sigKey (s : Signal) : String × String × Title :=
  (s.category, s.type, s.title)

/-- `bars[k]` with JS out-of-range semantics. -/
def jsGetS (bars : List SBar) (k : ℤ) : Option SBar :=
  if k < 0 then none else bars[k.toNat]?

/-- `detectCandleSignals(bars, timeframe)` from `signals.ts`: engulfing,
hammer / shooting star, inside / outside bar on the last two bars. -/
def detectCandleSignals (bars : List SBar) (timeframe : String) : List Signal :=
  match jsGetS bars ((bars.length : ℤ) - 1), jsGetS bars ((bars.length : ℤ) - 2) with
  | some a, some b =>
      let aBody := |a.c - a.o|
      let aRange := max (1 / 1000000000 : ℚ) (a.h - a.l)
      let upperWick := a.h - max a.o a.c
      let lowerWick := min a.o a.c - a.l
      let bullEngulf := a.o < a.c ∧ b.c < b.o ∧ a.o ≤ b.c ∧ b.o ≤ a.c
      let bearEngulf := a.c < a.o ∧ b.o < b.c ∧ b.c ≤ a.o ∧ a.c ≤ b.o
      let hammer := (55 : ℚ) / 100 ≤ lowerWick / aRange ∧
          upperWick / aRange ≤ (25 : ℚ) / 100 ∧ aBody / aRange ≤ (35 : ℚ) / 100
      let shootingStar := (55 : ℚ) / 100 ≤ upperWick / aRange ∧
          lowerWick / aRange ≤ (25 : ℚ) / 100 ∧ aBody / aRange ≤ (35 : ℚ) / 100
      let inside := a.h ≤ b.h ∧ b.l ≤ a.l
      let outside := b.h ≤ a.h ∧ a.l ≤ b.l
      (if bullEngulf then
          [⟨"candles:bullish_engulfing", "candles", "bullish_engulfing", timeframe,
            .med, .bullishEngulfing⟩] else []) ++
      (if bearEngulf then
          [⟨"candles:bearish_engulfing", "candles", "bearish_engulfing", timeframe,
            .med, .bearishEngulfing⟩] else []) ++
      (if hammer then
          [⟨"candles:hammer", "candles", "hammer", timeframe, .med, .hammer⟩] else []) ++
      (if shootingStar then
          [⟨"candles:shooting_star", "candles", "shooting_star", timeframe,
            .med, .shootingStar⟩] else []) ++
      (if inside then
          [⟨"candles:inside_bar", "candles", "inside_bar", timeframe,
            .info, .insideBar⟩] else []) ++
      (if outside then
          [⟨"candles:outside_bar", "candles", "outside_bar", timeframe,
            .info, .outsideBar⟩] else [])
  | _, _ => []

/-- The `RSIDivergence` input shape of `signals.ts` (all fields optional in
the source). -/
structure SRSIDivergence where
  type : DivType
  strength : Option ℚ
  pivot_dates : Option (List String)
deriving DecidableEq

/-- `detectRSISignals(rsi14, div, timeframe)` from `signals.ts`: the
mutually exclusive RSI bands (≤35, ≥65, <45, >55 in that order) plus a
divergence signal whose severity is `high` iff strength ≥ 3. -/
def detectRSISignals (rsi14 : Option ℚ) (div : Option SRSIDivergence)
    (timeframe : String) : List Signal :=
  (match rsi14 with
   | none => []
   | some r =>
      if r ≤ 35 then
        [⟨"momentum:rsi_oversold", "momentum", "rsi_oversold", timeframe, .med, .rsiOversold r⟩]
      else if 65 ≤ r then
        [⟨"momentum:rsi_overbought", "momentum", "rsi_overbought", timeframe, .med,
          .rsiOverbought r⟩]
      else if r < 45 then
        [⟨"momentum:rsi_weak", "momentum", "rsi_weak", timeframe, .info, .rsiWeak r⟩]
      else if 55 < r then
        [⟨"momentum:rsi_positive", "momentum", "rsi_positive", timeframe, .info,
          .rsiPositive r⟩]
      else []) ++
  (let divType := match div with
    | none => DivType.none'
    | some d => d.type
   let strength := ((div.bind (·.strength)).getD 0)
   if divType ≠ DivType.none' then
     [⟨"momentum:rsi_divergence", "momentum", "rsi_divergence", timeframe,
       if 3 ≤ strength then .high else .med, .rsiDivergence divType⟩]
   else [])

/-- An FVG as computed by `computeFVGs` in `signals.ts`. -/
structure SFVG where
  side : FVGType
  low : ℚ
  high : ℚ
  atIndex : ℕ
  t : Option String
deriving DecidableEq

/-- `b.t || b.time || b.date` (the JS `||` chain on the optional date
fields; the empty-string-falsy corner of `||` does not arise for these
data fields and is not modelled). -/
def sbarDate (b : SBar) : Option String :=
  (b.t.or b.time).or b.date

/-- `computeFVGs(bars, lookback = 80)` from `signals.ts`: three-bar
imbalances over the last `lookback` bars (both shapes tested
independently per middle index). -/
def computeFVGs (bars : List SBar) (lookback : ℕ) : List SFVG :=
  let start := max 1 (bars.length - lookback)
  (List.range' start ((bars.length - 1) - start)).flatMap fun i =>
    let prev := bars.getD (i - 1) default
    let mid := bars.getD i default
    let next := bars.getD (i + 1) default
    (if prev.h < next.l then [⟨FVGType.bullish, prev.h, next.l, i, sbarDate mid⟩] else []) ++
    (if next.h < prev.l then [⟨FVGType.bearish, next.h, prev.l, i, sbarDate mid⟩] else [])

/-- Render of `FVGType` used in the source's template ids/titles. -/
def fvgSideStr : FVGType → String
  | .bullish => "bullish"
  | .bearish => "bearish"

/-- `detectFVGSignals(bars, timeframe)` from `signals.ts`: the last three
FVGs, most recent first, as `info` signals. -/
def detectFVGSignals (bars : List SBar) (timeframe : String) : List Signal :=
  match bars.getLast? with
  | none => []
  | some _ =>
      let fvgs := computeFVGs bars 80
      if fvgs = [] then []
      else
        (sliceLast 3 fvgs).reverse.map fun f =>
          ⟨"structure:fvg_" ++ fvgSideStr f.side ++ "_" ++ Nat.repr f.atIndex,
           "structure", "fvg", timeframe, .info, .fvg f.side f.low f.high⟩

/-- `isSwingHigh(bars, i, 2, 2)` from `signals.ts`: strict local maximum of
`h` over the (JS-bounds-tolerant) window `i±2`. -/
def isSwingHigh (bars : List SBar) (i : ℤ) : Bool :=
  match jsGetS bars i with
  | none => false
  | some b =>
      ([i - 2, i - 1, i + 1, i + 2] : List ℤ).all fun k =>
        match jsGetS bars k with
        | none => true
        | some x => decide (x.h < b.h)

/-- `isSwingLow(bars, i, 2, 2)` from `signals.ts`. -/
def isSwingLow (bars : List SBar) (i : ℤ) : Bool :=
  match jsGetS bars i with
  | none => false
  | some b =>
      ([i - 2, i - 1, i + 1, i + 2] : List ℤ).all fun k =>
        match jsGetS bars k with
        | none => true
        | some x => decide (b.l < x.l)

/-- `detectLiquiditySweepSignals(bars, timeframe)` from `signals.ts`:
sweep of the most recent swing high / low (severity `high`) and the
failed-reclaim rejection candle (severity `med`).  The source's
"closed in the lower half" test is literally
`lastBar.c < (lastBar.o + lastBar.c) / 2`, i.e. the midpoint of open and
close — equivalent to `lastBar.c < lastBar.o` — and is embedded as
written. -/
def detectLiquiditySweepSignals (bars : List SBar) (timeframe : String) : List Signal :=
  if bars.length < 10 then [] else
  let look := min 30 (bars.length - 3)
  let idxs := List.range' (bars.length - look) (look - 2)
  let swingHighIdx := (idxs.filter fun (i : ℕ) => isSwingHigh bars (i : ℤ)).getLast?
  let swingLowIdx := (idxs.filter fun (i : ℕ) => isSwingLow bars (i : ℤ)).getLast?
  let lastBar := bars.getD (bars.length - 1) default
  let prevBar := bars.getD (bars.length - 2) default
  (match swingHighIdx with
   | none => []
   | some j =>
      let sh := bars.getD j default
      if sh.h < lastBar.h ∧ lastBar.c < sh.h then
        [⟨"liquidity:sweep_high", "liquidity", "liquidity_sweep_high", timeframe,
          .high, .sweepHigh sh.h⟩]
      else []) ++
  (match swingLowIdx with
   | none => []
   | some j =>
      let sl := bars.getD j default
      if lastBar.l < sl.l ∧ sl.l < lastBar.c then
        [⟨"liquidity:sweep_low", "liquidity", "liquidity_sweep_low", timeframe,
          .high, .sweepLow sl.l⟩]
      else []) ++
  (if prevBar.h < lastBar.h ∧ lastBar.c < (lastBar.o + lastBar.c) / 2 ∧
      lastBar.c < lastBar.o then
    [⟨"liquidity:failed_reclaim", "liquidity", "failed_reclaim", timeframe,
      .med, .failedReclaim⟩]
   else [])

/-- `type MACrossInputs` of `signals.ts` (each slot may be absent, `null`,
or a number — the three cases behave differently through `n()`). -/
structure MACrossInputs where
  sma20 : JVal
  sma50 : JVal
  sma200 : JVal
  prev_sma20 : JVal
  prev_sma50 : JVal
  prev_sma200 : JVal
deriving DecidableEq

/-- `crossUp(prevA, prevB, a, b)`: all four non-null and
`prevA ≤ prevB && a > b`. -/
def crossUp (pa pb a b : Option ℚ) : Bool :=
  match pa, pb, a, b with
  | some pa, some pb, some a, some b => decide (pa ≤ pb ∧ b < a)
  | _, _, _, _ => false

/-- `crossDown(prevA, prevB, a, b)`: all four non-null and
`prevA ≥ prevB && a < b`. -/
def crossDown (pa pb a b : Option ℚ) : Bool :=
  match pa, pb, a, b with
  | some pa, some pb, some a, some b => decide (pb ≤ pa ∧ a < b)
  | _, _, _, _ => false

/-- `detectMACrossSignals(ma, timeframe)` from `signals.ts`: 20/50 crosses
(severity `med`) and 50/200 golden / death crosses (severity `low`). -/
def detectMACrossSignals (ma : MACrossInputs) (timeframe : String) : List Signal :=
  let s20 := jsN ma.sma20
  let s50 := jsN ma.sma50
  let s200 := jsN ma.sma200
  let p20 := jsN ma.prev_sma20
  let p50 := jsN ma.prev_sma50
  let p200 := jsN ma.prev_sma200
  (if crossUp p20 p50 s20 s50 then
      [⟨"trend:sma20_cross_up_sma50", "trend", "ma_cross_up", timeframe, .med, .maCrossUp⟩]
    else []) ++
  (if crossDown p20 p50 s20 s50 then
      [⟨"trend:sma20_cross_down_sma50", "trend", "ma_cross_down", timeframe, .med,
        .maCrossDown⟩]
    else []) ++
  (if crossUp p50 p200 s50 s200 then
      [⟨"trend:golden_cross_50_200", "trend", "golden_cross", timeframe, .low, .goldenCross⟩]
    else []) ++
  (if crossDown p50 p200 s50 s200 then
      [⟨"trend:death_cross_50_200", "trend", "death_cross", timeframe, .low, .deathCross⟩]
    else [])

/-- The output shape of `normalizeLevels`: the support / resistance level
lists extracted from the untyped `key_levels` payload.  The JSON
field-guessing adapter itself lives outside the signals module; the
synthesizer's behaviour depends only on the two number lists it returns,
which this structure carries (`none` stands for a `null` / non-object
payload, for which `normalizeLevels` returns two empty lists). -/
structure NormLevels where
  support : List ℚ
  resistance : List ℚ
deriving DecidableEq

/-- `nearestBelow(price, arr)`: the greatest level `≤ price`, `null` if
none. -/
def nearestBelow (price : ℚ) (arr : List ℚ) : Option ℚ :=
  arr.foldl
    (fun best x =>
      if x ≤ price then
        match best with
        | none => some x
        | some b => if b < x then some x else best
      else best)
    none

/-- `nearestAbove(price, arr)`: the least level `≥ price`, `null` if
none. -/
def nearestAbove (price : ℚ) (arr : List ℚ) : Option ℚ :=
  arr.foldl
    (fun best x =>
      if price ≤ x then
        match best with
        | none => some x
        | some b => if x < b then some x else best
      else best)
    none

/-- The `away <= 1` test of `detectKeyLevelSignals` on
`away = |((lvl - spot) / spot) * 100|`: when `spot = 0` the JS division
yields `±Infinity` (or `NaN` for `lvl = 0`), which fails `away <= 1`. -/
def awayLE1 (spot lvl : ℚ) : Bool :=
  decide (spot ≠ 0) && decide (|((lvl - spot) / spot) * 100| ≤ 1)

/-- `detectKeyLevelSignals(spot, keyLevels, timeframe)` from `signals.ts`:
closest support / resistance, severity `high` within 1 % of spot and
`info` otherwise. -/
def detectKeyLevelSignals (spot : Option ℚ) (keyLevels : Option NormLevels)
    (timeframe : String) : List Signal :=
  match spot with
  | none => []
  | some spot =>
      let lv := keyLevels.getD ⟨[], []⟩
      if lv.support = [] ∧ lv.resistance = [] then [] else
      let ns := nearestBelow spot lv.support
      let nr := nearestAbove spot lv.resistance
      (match ns with
       | none => []
       | some ns =>
          [⟨"structure:closest_support", "structure", "closest_support", timeframe,
            if awayLE1 spot ns then .high else .info,
            if awayLE1 spot ns then .nearSupport ns (|((ns - spot) / spot) * 100|)
            else .closestSupport ns⟩]) ++
      (match nr with
       | none => []
       | some nr =>
          [⟨"structure:closest_resistance", "structure", "closest_resistance", timeframe,
            if awayLE1 spot nr then .high else .info,
            if awayLE1 spot nr then .nearResistance nr (|((nr - spot) / spot) * 100|)
            else .closestResistance nr⟩])

/-- `type BuildSignalsInput` of `signals.ts`. -/
structure BuildSignalsInput where
  timeframe : Option String
  bars : List SBar
  rsi14 : Option ℚ
  rsi_divergence : Option SRSIDivergence
  key_levels : Option NormLevels
  ma : Option MACrossInputs
  spot : Option ℚ
deriving DecidableEq

/-- `input.timeframe || "D"` (JS `||`: absent or empty string → `"D"`). -/
def tfOf (input : BuildSignalsInput) : String :=
  match input.timeframe with
  | none => "D"
  | some t => if t = "" then "D" else t

/-- The raw candidate list of `buildSignals`: the six detector outputs
concatenated in source push order. -/
def buildCandidates (input : BuildSignalsInput) : List Signal :=
  let timeframe := tfOf input
  detectCandleSignals input.bars timeframe ++
  detectRSISignals input.rsi14 input.rsi_divergence timeframe ++
  detectFVGSignals input.bars timeframe ++
  detectLiquiditySweepSignals input.bars timeframe ++
  (match input.ma with
   | some ma => detectMACrossSignals ma timeframe
   | none => []) ++
  detectKeyLevelSignals input.spot input.key_levels timeframe

/-- The severity sort of `buildSignals`:
`out.sort((a, b) => (rank[b.severity] ?? 0) - (rank[a.severity] ?? 0))`.
`Array.prototype.sort` is a stable sort ordered by the comparator, which
on this 4-valued key is exactly a stable merge sort under
`rank b ≤ rank a`. -/
def sortBySeverity (l : List Signal) : List Signal :=
  l.mergeSort fun a b => decide (sevRank b.severity ≤ sevRank a.severity)

/-- The dedup-and-cap loop of `buildSignals`: walk the sorted list, skip
keys already seen, push first occurrences, and stop right after the
`cap`-th push (`if (final.length >= 12) break`). -/
def dedupeCap (seen : List (String × String × Title)) (cap : ℕ) :
    List Signal → List Signal
  | [] => []
  | s :: rest =>
      if sigKey s ∈ seen then dedupeCap seen cap rest
      else if cap ≤ 1 then [s]
      else s :: dedupeCap (sigKey s :: seen) (cap - 1) rest

/-- `buildSignals(input)` from `signals.ts`: generate all candidates, sort
descending by severity rank, deduplicate by `(category, type, title)`
keeping first occurrences, truncate to 12. -/
def buildSignals (input : BuildSignalsInput) : List Signal :=
  dedupeCap [] 12 (sortBySeverity (buildCandidates input))

/-- The keys that a `dedupeCap` run starting from `seen` would newly admit
from `l`, in admission order (proof device for reasoning about the cap). -/
def newKeys (seen : List (String × String × Title)) : List Signal →
    List (String × String × Title)
  | [] => []
  | s :: rest =>
      if sigKey s ∈ seen then newKeys seen rest
      else sigKey s :: newKeys (sigKey s :: seen) rest

/-- The transformation of the pivot-symmetry property: reverse the bar
order and exchange the (negated) roles of `high` and `low`. -/
def mirrorNeg (bars : List OHLCV) : List OHLCV :=
  (bars.map fun b => { b with high := -b.low, low := -b.high }).reverse

/-- Example series for the divergence detector: swing lows at index 3
(price 100) and index 7 (price 95), strictly rising highs (so no swing
highs exist). -/
def divExampleBars : List OHLCV :=
  [⟨"d0", 0, 201, 110, 0, 0⟩, ⟨"d1", 0, 202, 108, 0, 0⟩, ⟨"d2", 0, 203, 106, 0, 0⟩,
   ⟨"d3", 0, 204, 100, 0, 0⟩, ⟨"d4", 0, 205, 106, 0, 0⟩, ⟨"d5", 0, 206, 108, 0, 0⟩,
   ⟨"d6", 0, 207, 109, 0, 0⟩, ⟨"d7", 0, 208, 95, 0, 0⟩, ⟨"d8", 0, 209, 108, 0, 0⟩,
   ⟨"d9", 0, 210, 110, 0, 0⟩, ⟨"d10", 0, 211, 112, 0, 0⟩]

/-- RSI series aligned with `divExampleBars`: RSI 25 at the first swing
low and 32 at the second (delta 7 ≥ 5). -/
def divExampleRsi : List (Option ℚ) :=
  [some 50, some 50, some 50, some 25, some 50, some 50, some 50, some 32,
   some 50, some 50, some 50]

/-- Example synthesizer input: no bars, a spot price sitting on its only
support level, which produces a single high-severity proximity signal. -/
def signalsExampleInput : BuildSignalsInput :=
  ⟨none, [], none, none, some ⟨[100], []⟩, none, some 100⟩

/-! ## Helper lemmas -/

theorem smaGo_length (values : List ℚ) (period : ℤ) :
    ∀ (rest : List ℚ) (i : ℕ) (sum : JSNum),
      (smaGo values period i sum rest).length = rest.length := by
  intro rest
  induction rest with
  | nil => intro i sum; rfl
  | cons v rest ih => intro i sum; simp [smaGo, ih]

theorem smaGo_getElem (values : List ℚ) (period : ℤ) :
    ∀ (rest : List ℚ) (i : ℕ) (sum : JSNum) (j : ℕ) (x : Option JSNum),
      (smaGo values period i sum rest)[j]? = some x →
      (x.isSome ↔ period - 1 ≤ (i : ℤ) + (j : ℤ)) := by
  intro rest
  induction rest with
  | nil => intro i sum j x hx; simp [smaGo] at hx
  | cons v rest ih =>
      intro i sum j x hx
      match j with
      | 0 =>
          simp only [smaGo, List.getElem?_cons_zero, Option.some.injEq] at hx
          subst hx
          split
          · simpa using by omega
          · simp only [Option.isSome_none, Bool.false_eq_true, false_iff]
            omega
      | j + 1 =>
          simp only [smaGo, List.getElem?_cons_succ] at hx
          have := ih (i + 1) _ j x hx
          rw [this]
          constructor <;> intro h <;> push_cast at h ⊢ <;> omega

/-! ## Claim theorems -/

/-- **C4** (corrected).  The claim asserts that `sma` returns an all-`null`
series for `period ≤ 0`.  In the source, the guard `i >= period - 1` is
vacuously true for every index once `period ≤ 0`, so every entry of the
output is *assigned* (a number, `NaN` or `±Infinity`), never `null`; only
the warm-up behaviour for `period ≥ 1` and the empty-input case are as
claimed.  Amended statement: the output has the length of the input, and
an entry at index `i` is non-`null` exactly when `i ≥ period - 1` —
in particular all entries are defined when `period ≤ 0`, and for
`period ≥ 1` the entries before index `period - 1` are `null` and the
ones from it on are defined. -/
theorem C4_sma_guard (values : List ℚ) (period : ℤ) :
    (sma values period).length = values.length ∧
    ∀ (i : ℕ) (x : Option JSNum), (sma values period)[i]? = some x →
      (x.isSome ↔ period - 1 ≤ (i : ℤ)) := by
  constructor
  · exact smaGo_length values period values 0 (.num 0)
  · intro i x hx
    have := smaGo_getElem values period values 0 (.num 0) i x hx
    simpa using this

/-- **C4**, counterexample to the claim as stated: on the one-element
input `[1]` with `period = 0` the output entry is an assigned `NaN`, not
`null`. -/
theorem C4_sma_guard_cex : ¬ ∀ e ∈ sma [(1 : ℚ)] 0, e = none := by
  norm_num [sma, smaGo, jsAdd, jsSubIdx, jsSub, jsNeg, jsDivInt, jsIdx]
  exact fun h => Option.noConfusion h

/-- **C4**, witness: the amended theorem applied at `values = [1, 2]`,
`period = 2`, index `1`. -/
theorem C4_sma_guard_witness :
    ((sma [(1 : ℚ), 2] 2)[1]? = some (some (JSNum.num (3 / 2)))) ∧
    (Option.isSome (some (JSNum.num (3 / 2))) ↔ (2 : ℤ) - 1 ≤ ((1 : ℕ) : ℤ)) :=
  ⟨by norm_num [sma, smaGo, jsAdd, jsSubIdx, jsSub, jsNeg, jsDivInt, jsIdx],
   (C4_sma_guard [(1 : ℚ), 2] 2).2 1 (some (JSNum.num (3 / 2)))
     (by norm_num [sma, smaGo, jsAdd, jsSubIdx, jsSub, jsNeg, jsDivInt, jsIdx])⟩

theorem rsiVal_bounds {g l : ℚ} (hg : 0 ≤ g) (hl : 0 ≤ l) :
    0 ≤ rsiVal g l ∧ rsiVal g l ≤ 100 := by
  unfold rsiVal
  split
  · norm_num
  · rename_i hne
    have hl0 : 0 < l := lt_of_le_of_ne hl (Ne.symm hne)
    have hrs : 0 ≤ g / l := div_nonneg hg hl0.le
    have h1 : (1 : ℚ) ≤ 1 + g / l := by linarith
    have h2 : 100 / (1 + g / l) ≤ 100 := div_le_self (by norm_num) h1
    have h3 : 0 ≤ 100 / (1 + g / l) := div_nonneg (by norm_num) (by linarith)
    constructor <;> linarith

theorem rsiStep_nonneg {period : ℕ} (hp : 1 ≤ period) {gl : ℚ × ℚ} (ch : ℚ)
    (hg : 0 ≤ gl.1) (hl : 0 ≤ gl.2) :
    0 ≤ (rsiStep period gl ch).1 ∧ 0 ≤ (rsiStep period gl ch).2 := by
  have hp1 : (1 : ℚ) ≤ (period : ℚ) := by exact_mod_cast hp
  have hpnn : (0 : ℚ) ≤ (period : ℚ) := by linarith
  unfold rsiStep
  constructor
  · apply div_nonneg _ hpnn
    have : 0 ≤ (if 0 < ch then ch else 0) := by split <;> linarith
    have hmul : 0 ≤ gl.1 * ((period : ℚ) - 1) := mul_nonneg hg (by linarith)
    linarith
  · apply div_nonneg _ hpnn
    have : 0 ≤ (if ch < 0 then -ch else 0) := by split <;> linarith
    have hmul : 0 ≤ gl.2 * ((period : ℚ) - 1) := mul_nonneg hl (by linarith)
    linarith

theorem rsiTail_bounds {period : ℕ} (hp : 1 ≤ period) :
    ∀ (l : List ℚ) (gl : ℚ × ℚ), 0 ≤ gl.1 → 0 ≤ gl.2 →
      ∀ x ∈ rsiTail period gl l, 0 ≤ x ∧ x ≤ 100 := by
  intro l
  induction l with
  | nil => intro gl _ _ x hx; simp [rsiTail] at hx
  | cons ch rest ih =>
      intro gl hg hl x hx
      have hstep := rsiStep_nonneg hp ch hg hl
      simp only [rsiTail, List.mem_cons] at hx
      rcases hx with hx | hx
      · subst hx; exact rsiVal_bounds hstep.1 hstep.2
      · exact ih (rsiStep period gl ch) hstep.1 hstep.2 x hx

theorem rsiSeed_nonneg :
    ∀ (l : List ℚ) (gl : ℚ × ℚ), 0 ≤ gl.1 → 0 ≤ gl.2 →
      0 ≤ (l.foldl (fun gl ch =>
            if 0 ≤ ch then (gl.1 + ch, gl.2) else (gl.1, gl.2 - ch)) gl).1 ∧
      0 ≤ (l.foldl (fun gl ch =>
            if 0 ≤ ch then (gl.1 + ch, gl.2) else (gl.1, gl.2 - ch)) gl).2 := by
  intro l
  induction l with
  | nil => intro gl hg hl; exact ⟨hg, hl⟩
  | cons ch rest ih =>
      intro gl hg hl
      simp only [List.foldl_cons]
      by_cases hch : 0 ≤ ch
      · simpa [hch] using ih (gl.1 + ch, gl.2) (add_nonneg hg hch) hl
      · have hch0 : ch < 0 := lt_of_not_le hch
        simpa [hch] using ih (gl.1, gl.2 - ch) hg (sub_nonneg.mpr (le_trans hch0.le hl))

/-- **C5** (confirmed).  For `period ≥ 1`, every defined entry of the
`rsiWilder` output lies in `[0, 100]`, and the RSI formula evaluates to
exactly `100` whenever the smoothed cumulative loss is zero (the source's
`rs = Infinity` branch). -/
theorem C5_rsi_range (closes : List ℚ) (period : ℕ) (hp : 1 ≤ period) :
    (∀ x ∈ rsiWilder closes period, ∀ v : ℚ, x = some v → 0 ≤ v ∧ v ≤ 100) ∧
    (∀ gain : ℚ, rsiVal gain 0 = 100) := by
  constructor
  · intro x hx v hv
    subst hv
    unfold rsiWilder at hx
    split at hx
    · exact absurd (List.eq_of_mem_replicate hx) (by simp)
    · have hpnn : (0 : ℚ) ≤ (period : ℚ) := by positivity
      set diffs := List.zipWith (fun a b => a - b) closes.tail closes with hdiffs
      have hseed := rsiSeed_nonneg (diffs.take period) ((0 : ℚ), (0 : ℚ)) le_rfl le_rfl
      simp only [List.mem_append, List.mem_cons, List.mem_map] at hx
      rcases hx with hx | hx | ⟨w, hw, hwx⟩
      · exact absurd (List.eq_of_mem_replicate hx) (by simp)
      · rw [Option.some_inj] at hx
        rw [hx]
        exact rsiVal_bounds (div_nonneg hseed.1 hpnn) (div_nonneg hseed.2 hpnn)
      · rw [Option.some_inj] at hwx
        rw [← hwx]
        exact rsiTail_bounds hp (diffs.drop period) _
          (div_nonneg hseed.1 hpnn) (div_nonneg hseed.2 hpnn) w hw
  · intro gain; simp [rsiVal]

/-- **C5**, witness: the theorem applied at `closes = [1, 2, 1]`,
`period = 1`. -/
theorem C5_rsi_range_witness :
    (1 ≤ 1) ∧
    (∀ x ∈ rsiWilder [(1 : ℚ), 2, 1] 1, ∀ v : ℚ, x = some v → 0 ≤ v ∧ v ≤ 100) ∧
    (∀ gain : ℚ, rsiVal gain 0 = 100) :=
  ⟨le_refl 1, (C5_rsi_range [(1 : ℚ), 2, 1] 1 (le_refl 1)).1,
   (C5_rsi_range [(1 : ℚ), 2, 1] 1 (le_refl 1)).2⟩

theorem gapScan_ne_unfilled (gapUp : Bool) (zl zh : ℚ) :
    ∀ (l : List OHLCV) (st : GapStatus), st ≠ .unfilled →
      gapScan gapUp zl zh l st ≠ .unfilled := by
  intro l
  induction l with
  | nil => intro st h; simpa [gapScan] using h
  | cons b rest ih =>
      intro st h
      simp only [gapScan]
      split
      · simp
      · apply ih
        split
        · simp
        · exact h

theorem gapScan_filled_iff (gapUp : Bool) (zl zh : ℚ) :
    ∀ (l : List OHLCV) (st : GapStatus), st ≠ .filled →
      (gapScan gapUp zl zh l st = .filled ↔
        ∃ b ∈ l, fullyFilled gapUp zl zh b = true) := by
  intro l
  induction l with
  | nil =>
      intro st h
      simp only [gapScan, List.not_mem_nil]
      constructor
      · intro hst; exact absurd hst h
      · rintro ⟨b, hb, -⟩; exact absurd hb (by simp)
  | cons b rest ih =>
      intro st h
      simp only [gapScan]
      split
      · rename_i hfull
        simp only [true_iff]
        exact ⟨b, List.mem_cons_self b rest, hfull⟩
      · rename_i hfull
        have hst1 : (if tradedLow zl zh b then GapStatus.partial' else st) ≠
            GapStatus.filled := by
          split
          · simp
          · exact h
        rw [ih _ hst1]
        constructor
        · rintro ⟨c, hc, hcond⟩; exact ⟨c, List.mem_cons_of_mem b hc, hcond⟩
        · rintro ⟨c, hc, hcond⟩
          rcases List.mem_cons.mp hc with hcb | hcr
          · subst hcb; exact absurd hcond (by simpa using hfull)
          · exact ⟨c, hcr, hcond⟩

theorem mem_sliceLast {α : Type _} {k : ℕ} {l : List α} {x : α}
    (hx : x ∈ sliceLast k l) : x ∈ l :=
  List.mem_of_mem_drop hx

theorem gapAt_status_ne_unfilled (bars : List OHLCV) (lf i : ℕ)
    (hwf : ∀ b ∈ bars, b.low ≤ b.open' ∧ b.open' ≤ b.high)
    (hi : i < bars.length) (g : Gap) (hg : gapAt bars lf i = some g) :
    g.status ≠ .unfilled := by
  have hcur : getBar bars i ∈ bars := by
    unfold getBar
    rw [List.getD_eq_getElem bars default hi]
    exact List.getElem_mem hi
  obtain ⟨hco, hch⟩ := hwf _ hcur
  have hwin : (bars.drop i).take (min (bars.length - 1 - i) lf + 1) =
      getBar bars i :: (bars.drop (i + 1)).take (min (bars.length - 1 - i) lf) := by
    rw [List.drop_eq_getElem_cons hi, List.take_succ_cons]
    unfold getBar
    rw [List.getD_eq_getElem bars default hi]
  simp only [gapAt] at hg
  split at hg
  · exact absurd hg (by simp)
  · split at hg
    · exact absurd hg (by simp)
    · rename_i hnot
      split at hg
      · rename_i hup'
        have hup : (getBar bars (i - 1)).high < (getBar bars i).open' :=
          of_decide_eq_true hup'
        split at hg
        · exact absurd hg (by simp)
        · rw [Option.some_inj] at hg
          subst hg
          simp only [ne_eq, hup', hwin, if_true, gapScan]
          split
          · simp
          · apply gapScan_ne_unfilled
            rw [if_pos]
            · simp
            · simp only [tradedLow, Bool.and_eq_true, decide_eq_true_eq]
              exact ⟨le_refl _, le_trans hup.le hch⟩
      · rename_i hup'
        have hdown : (getBar bars i).open' < (getBar bars (i - 1)).low := by
          by_contra hnd
          exact hnot ⟨by simpa using hup', by simpa using hnd⟩
        split at hg
        · exact absurd hg (by simp)
        · rw [Option.some_inj] at hg
          subst hg
          have hupf : decide ((getBar bars (i - 1)).high < (getBar bars i).open') = false := by
            simpa using hup'
          simp only [ne_eq, hupf, hwin, Bool.false_eq_true, if_false, gapScan]
          split
          · simp
          · apply gapScan_ne_unfilled
            rw [if_pos]
            · simp
            · simp only [tradedLow, Bool.and_eq_true, decide_eq_true_eq]
              exact ⟨le_trans hco hdown.le, le_refl _⟩

/-- **C9** (corrected).  The claim quantifies over *every* bar series; for
OHLC-well-formed bars (`low ≤ open ≤ high`) the gap bar itself always
overlaps the freshly created zone, so the first scan iteration marks the
gap at least `partial` — but a malformed bar (e.g. `high < low`) can leave
a returned gap `unfilled` (see the counterexample).  Amended statement:
for every bar series whose bars satisfy `low ≤ open ≤ high`, every gap
returned by `detectGaps` has status `partial` or `filled`, never
`unfilled`. -/
theorem C9_gap_never_unfilled (bars : List OHLCV) (lf : ℕ)
    (hwf : ∀ b ∈ bars, b.low ≤ b.open' ∧ b.open' ≤ b.high) :
    ∀ g ∈ detectGaps bars lf, g.status = .partial' ∨ g.status = .filled := by
  intro g hg
  have hg' := mem_sliceLast hg
  obtain ⟨i, hir, hgi⟩ := List.mem_filterMap.mp hg'
  have hi : i < bars.length := List.mem_range.mp hir
  have := gapAt_status_ne_unfilled bars lf i hwf hi g hgi
  cases h : g.status
  · exact absurd h this
  · exact Or.inl rfl
  · exact Or.inr rfl

/-- **C2** (corrected).  In the source, a gap-up's zone is
`[prev.high, cur.low]` — the upper bound is the gapping bar's *low*, not
its open (`const zone_high = gapUp ? cur.low : prev.low`), so the claim's
"zone spans from the prior extreme to the gapping open" (zone_high = 52
whenever open = 52) fails whenever the bar trades below its open (see the
counterexample).  Amended statement: a gap-up is detected when the open
clears the previous high; its zone is `[prev.high, cur.low]` (which is
`[50, 52]` in the spec's example only when the bar opens at its low), and
the status is `filled` iff some bar of the forward window has
`low ≤ prev.high`. -/
theorem C2_gap_zone (bars : List OHLCV) (lf i : ℕ) (h1 : 1 ≤ i) (hi : i < bars.length)
    (hgap : (getBar bars (i - 1)).high < (getBar bars i).open')
    (hzone : (getBar bars (i - 1)).high < (getBar bars i).low) :
    ∃ g : Gap, gapAt bars lf i = some g ∧ g.type = GapType.gap_up ∧
      g.zone_low = (getBar bars (i - 1)).high ∧ g.zone_high = (getBar bars i).low ∧
      (g.status = GapStatus.filled ↔
        ∃ b ∈ (bars.drop i).take (min (bars.length - 1 - i) lf + 1),
          b.low ≤ (getBar bars (i - 1)).high) := by
  have hA : decide ((getBar bars (i - 1)).high < (getBar bars i).open') = true :=
    decide_eq_true hgap
  have hne0 : ¬ i = 0 := by omega
  have hzn : ¬ ((getBar bars i).low ≤ (getBar bars (i - 1)).high) := not_le.mpr hzone
  have heq : gapAt bars lf i = some
      ⟨(getBar bars i).date, GapType.gap_up, (getBar bars (i - 1)).close,
       (getBar bars i).open', (getBar bars (i - 1)).high, (getBar bars i).low,
       |(getBar bars i).open' - (getBar bars (i - 1)).close| / (getBar bars (i - 1)).close,
       gapScan true ((getBar bars (i - 1)).high) ((getBar bars i).low)
         ((bars.drop i).take (min (bars.length - 1 - i) lf + 1)) GapStatus.unfilled⟩ := by
    simp only [gapAt, hne0, if_false, hA, if_true, Bool.true_eq_false, false_and]
    rw [if_neg hzn]
  refine ⟨_, heq, rfl, rfl, rfl, ?_⟩
  have hst : (⟨(getBar bars i).date, GapType.gap_up, (getBar bars (i - 1)).close,
      (getBar bars i).open', (getBar bars (i - 1)).high, (getBar bars i).low,
      |(getBar bars i).open' - (getBar bars (i - 1)).close| / (getBar bars (i - 1)).close,
      gapScan true ((getBar bars (i - 1)).high) ((getBar bars i).low)
        ((bars.drop i).take (min (bars.length - 1 - i) lf + 1)) GapStatus.unfilled⟩ :
      Gap).status =
      gapScan true ((getBar bars (i - 1)).high) ((getBar bars i).low)
        ((bars.drop i).take (min (bars.length - 1 - i) lf + 1)) GapStatus.unfilled := rfl
  rw [hst, gapScan_filled_iff true _ _ _ _ (by simp)]
  simp only [fullyFilled, if_true, decide_eq_true_eq]

/-- **C2**, counterexample to the claim as stated: prior bar `high = 50`,
gapping bar `open = 52` but `low = 51` — the produced gap-up has
`zone_high = 51`, not the gapping open `52`. -/
theorem C2_gap_zone_cex :
    ¬ ∀ g ∈ detectGaps
        [⟨"d1", 49, 50, 48, 99 / 2, 0⟩, ⟨"d2", 52, 53, 51, 105 / 2, 0⟩] 40,
        (g.type = GapType.gap_up → g.zone_high = g.open') := by
  intro h
  have h1 : gapAt [(⟨"d1", 49, 50, 48, 99 / 2, 0⟩ : OHLCV), ⟨"d2", 52, 53, 51, 105 / 2, 0⟩] 40 1 =
      some ⟨"d2", GapType.gap_up, 99 / 2, 52, 50, 51, |(52 : ℚ) - 99 / 2| / (99 / 2),
        GapStatus.partial'⟩ := by
    norm_num [gapAt, gapScan, tradedLow, fullyFilled, getBar, decide_eq_true_eq,
      decide_eq_false_iff_not]
  have hlist : detectGaps [(⟨"d1", 49, 50, 48, 99 / 2, 0⟩ : OHLCV),
      ⟨"d2", 52, 53, 51, 105 / 2, 0⟩] 40 =
      [⟨"d2", GapType.gap_up, 99 / 2, 52, 50, 51, |(52 : ℚ) - 99 / 2| / (99 / 2),
        GapStatus.partial'⟩] := by
    unfold detectGaps
    rw [show ([(⟨"d1", 49, 50, 48, 99 / 2, 0⟩ : OHLCV),
        ⟨"d2", 52, 53, 51, 105 / 2, 0⟩]).length = 2 from rfl]
    rw [show List.range 2 = [0, 1] from rfl, List.filterMap_cons, List.filterMap_cons,
      List.filterMap_nil]
    rw [show gapAt [(⟨"d1", 49, 50, 48, 99 / 2, 0⟩ : OHLCV),
        ⟨"d2", 52, 53, 51, 105 / 2, 0⟩] 40 0 = none from rfl, h1]
    rfl
  have := h _ (by rw [hlist]; exact List.mem_cons_self _ _) rfl
  norm_num at this

/-- **C2**, witness: the amended theorem at prior high `50` and a bar
opening at its low `52`; the zone is `[50, 52]` and a later bar with
`low = 49 ≤ 50` makes the fill condition hold. -/
theorem C2_gap_zone_witness :
    ∃ g : Gap, gapAt [(⟨"d1", 49, 50, 48, 99 / 2, 0⟩ : OHLCV),
        ⟨"d2", 52, 53, 52, 105 / 2, 0⟩, ⟨"d3", 50, 51, 49, 50, 0⟩] 40 1 = some g ∧
      g.type = GapType.gap_up ∧ g.zone_low = 50 ∧ g.zone_high = 52 ∧
      (g.status = GapStatus.filled ↔
        ∃ b ∈ [(⟨"d2", 52, 53, 52, 105 / 2, 0⟩ : OHLCV), ⟨"d3", 50, 51, 49, 50, 0⟩],
          b.low ≤ 50) :=
  C2_gap_zone [(⟨"d1", 49, 50, 48, 99 / 2, 0⟩ : OHLCV),
    ⟨"d2", 52, 53, 52, 105 / 2, 0⟩, ⟨"d3", 50, 51, 49, 50, 0⟩] 40 1
    (by norm_num) (by norm_num) (by decide) (by decide)

/-- **C9**, counterexample to the claim as stated: a malformed gapping bar
with `high = 40 < low = 51` never overlaps its own zone `(50, 51)` and no
later bar exists, so the returned gap keeps status `unfilled`. -/
theorem C9_gap_never_unfilled_cex :
    ¬ ∀ g ∈ detectGaps [⟨"d1", 49, 50, 48, 99 / 2, 0⟩, ⟨"d2", 52, 40, 51, 41, 0⟩] 40,
        g.status ≠ GapStatus.unfilled := by
  intro h
  have h1 : gapAt [(⟨"d1", 49, 50, 48, 99 / 2, 0⟩ : OHLCV), ⟨"d2", 52, 40, 51, 41, 0⟩] 40 1 =
      some ⟨"d2", GapType.gap_up, 99 / 2, 52, 50, 51, |(52 : ℚ) - 99 / 2| / (99 / 2),
        GapStatus.unfilled⟩ := by
    norm_num [gapAt, gapScan, tradedLow, fullyFilled, getBar, decide_eq_true_eq,
      decide_eq_false_iff_not]
  have hlist : detectGaps [(⟨"d1", 49, 50, 48, 99 / 2, 0⟩ : OHLCV),
      ⟨"d2", 52, 40, 51, 41, 0⟩] 40 =
      [⟨"d2", GapType.gap_up, 99 / 2, 52, 50, 51, |(52 : ℚ) - 99 / 2| / (99 / 2),
        GapStatus.unfilled⟩] := by
    unfold detectGaps
    rw [show ([(⟨"d1", 49, 50, 48, 99 / 2, 0⟩ : OHLCV),
        ⟨"d2", 52, 40, 51, 41, 0⟩]).length = 2 from rfl]
    rw [show List.range 2 = [0, 1] from rfl, List.filterMap_cons, List.filterMap_cons,
      List.filterMap_nil]
    rw [show gapAt [(⟨"d1", 49, 50, 48, 99 / 2, 0⟩ : OHLCV),
        ⟨"d2", 52, 40, 51, 41, 0⟩] 40 0 = none from rfl, h1]
    rfl
  exact h _ (by rw [hlist]; exact List.mem_cons_self _ _) rfl

/-- **C9**, witness: the amended theorem applied to the single gap record
a two-bar well-formed gap-up series returns — its status is `partial` or
`filled`. -/
theorem C9_gap_never_unfilled_witness :
    (⟨"d2", GapType.gap_up, 99 / 2, 52, 50, 51, |(52 : ℚ) - 99 / 2| / (99 / 2),
        GapStatus.partial'⟩ : Gap).status = GapStatus.partial' ∨
    (⟨"d2", GapType.gap_up, 99 / 2, 52, 50, 51, |(52 : ℚ) - 99 / 2| / (99 / 2),
        GapStatus.partial'⟩ : Gap).status = GapStatus.filled := by
  have h1 : gapAt [(⟨"d1", 49, 50, 48, 99 / 2, 0⟩ : OHLCV),
      ⟨"d2", 52, 53, 51, 105 / 2, 0⟩] 40 1 =
      some ⟨"d2", GapType.gap_up, 99 / 2, 52, 50, 51, |(52 : ℚ) - 99 / 2| / (99 / 2),
        GapStatus.partial'⟩ := by
    norm_num [gapAt, gapScan, tradedLow, fullyFilled, getBar, decide_eq_true_eq,
      decide_eq_false_iff_not]
  have hlist : detectGaps [(⟨"d1", 49, 50, 48, 99 / 2, 0⟩ : OHLCV),
      ⟨"d2", 52, 53, 51, 105 / 2, 0⟩] 40 =
      [⟨"d2", GapType.gap_up, 99 / 2, 52, 50, 51, |(52 : ℚ) - 99 / 2| / (99 / 2),
        GapStatus.partial'⟩] := by
    unfold detectGaps
    rw [show ([(⟨"d1", 49, 50, 48, 99 / 2, 0⟩ : OHLCV),
        ⟨"d2", 52, 53, 51, 105 / 2, 0⟩]).length = 2 from rfl]
    rw [show List.range 2 = [0, 1] from rfl, List.filterMap_cons, List.filterMap_cons,
      List.filterMap_nil]
    rw [show gapAt [(⟨"d1", 49, 50, 48, 99 / 2, 0⟩ : OHLCV),
        ⟨"d2", 52, 53, 51, 105 / 2, 0⟩] 40 0 = none from rfl, h1]
    rfl
  exact C9_gap_never_unfilled [(⟨"d1", 49, 50, 48, 99 / 2, 0⟩ : OHLCV),
      ⟨"d2", 52, 53, 51, 105 / 2, 0⟩] 40 (by decide) _
    (by rw [hlist]; exact List.mem_cons_self _ _)

theorem fvgAt_rebalanced (bars : List OHLCV) (lf i : ℕ)
    (hwf : ∀ b ∈ bars, b.low ≤ b.high) (hi : i < bars.length) :
    ∀ f ∈ fvgAt bars lf i, f.rebalanced = true := by
  intro f hf
  have hcur : getBar bars i ∈ bars := by
    unfold getBar
    rw [List.getD_eq_getElem bars default hi]
    exact List.getElem_mem hi
  have hlh := hwf _ hcur
  have hwin : (bars.drop i).take (min (bars.length - 1 - i) lf + 1) =
      getBar bars i :: (bars.drop (i + 1)).take (min (bars.length - 1 - i) lf) := by
    rw [List.drop_eq_getElem_cons hi, List.take_succ_cons]
    unfold getBar
    rw [List.getD_eq_getElem bars default hi]
  simp only [fvgAt] at hf
  split at hf
  · exact absurd hf (by simp)
  · rw [List.mem_append] at hf
    rcases hf with hf | hf
    · split at hf
      · rename_i hbull
        rcases List.mem_singleton.mp hf with rfl
        show fvgRebalanced _ _ _ = true
        rw [hwin]
        simp only [fvgRebalanced, List.any_cons, Bool.or_eq_true, Bool.and_eq_true,
          decide_eq_true_eq]
        exact Or.inl ⟨le_refl _, le_trans hbull.le hlh⟩
      · exact absurd hf (by simp)
    · split at hf
      · rename_i hbear
        rcases List.mem_singleton.mp hf with rfl
        show fvgRebalanced _ _ _ = true
        rw [hwin]
        simp only [fvgRebalanced, List.any_cons, Bool.or_eq_true, Bool.and_eq_true,
          decide_eq_true_eq]
        exact Or.inl ⟨le_trans hlh hbear.le, le_refl _⟩
      · exact absurd hf (by simp)

/-- **C10** (corrected).  As with C9, the claim holds for OHLC-well-formed
bars: the creation bar's range always overlaps the zone it just defined,
so the scan marks `rebalanced` on its first iteration — but a malformed
bar (`high < low`) refutes the unrestricted claim (see the
counterexample).  Amended statement: for every bar series whose bars
satisfy `low ≤ high`, every record returned by `detectFVG` has
`rebalanced = true`. -/
theorem C10_fvg_rebalanced (bars : List OHLCV) (lf : ℕ)
    (hwf : ∀ b ∈ bars, b.low ≤ b.high) :
    ∀ f ∈ detectFVG bars lf, f.rebalanced = true := by
  intro f hf
  have hf' := mem_sliceLast hf
  obtain ⟨i, hir, hfi⟩ := List.mem_flatMap.mp hf'
  exact fvgAt_rebalanced bars lf i hwf (List.mem_range.mp hir) f hfi

/-- **C10**, counterexample to the claim as stated: the malformed third
bar `high = 3 < low = 10` creates a bullish FVG over zone `[5, 10]` (and a
bearish one over `[3, 4]`) that nothing ever overlaps, so `detectFVG`
returns records with `rebalanced = false`. -/
theorem C10_fvg_rebalanced_cex :
    ¬ ∀ f ∈ detectFVG [⟨"f1", 4, 5, 4, 4, 0⟩, ⟨"f2", 6, 7, 6, 6, 0⟩,
        ⟨"f3", 10, 3, 10, 10, 0⟩] 40, f.rebalanced = true := by
  intro h
  have h2 : fvgAt [(⟨"f1", 4, 5, 4, 4, 0⟩ : OHLCV), ⟨"f2", 6, 7, 6, 6, 0⟩,
      ⟨"f3", 10, 3, 10, 10, 0⟩] 40 2 =
      [⟨"f3", FVGType.bullish, 5, 10, false⟩, ⟨"f3", FVGType.bearish, 3, 4, false⟩] := by
    norm_num [fvgAt, fvgRebalanced, getBar, decide_eq_true_eq, decide_eq_false_iff_not]
  have hlist : detectFVG [(⟨"f1", 4, 5, 4, 4, 0⟩ : OHLCV), ⟨"f2", 6, 7, 6, 6, 0⟩,
      ⟨"f3", 10, 3, 10, 10, 0⟩] 40 =
      [⟨"f3", FVGType.bullish, 5, 10, false⟩, ⟨"f3", FVGType.bearish, 3, 4, false⟩] := by
    unfold detectFVG
    rw [show ([(⟨"f1", 4, 5, 4, 4, 0⟩ : OHLCV), ⟨"f2", 6, 7, 6, 6, 0⟩,
        ⟨"f3", 10, 3, 10, 10, 0⟩]).length = 3 from rfl]
    rw [show List.range 3 = [0, 1, 2] from rfl, List.flatMap_cons, List.flatMap_cons,
      List.flatMap_cons, List.flatMap_nil]
    rw [show fvgAt [(⟨"f1", 4, 5, 4, 4, 0⟩ : OHLCV), ⟨"f2", 6, 7, 6, 6, 0⟩,
        ⟨"f3", 10, 3, 10, 10, 0⟩] 40 0 = [] from rfl]
    rw [show fvgAt [(⟨"f1", 4, 5, 4, 4, 0⟩ : OHLCV), ⟨"f2", 6, 7, 6, 6, 0⟩,
        ⟨"f3", 10, 3, 10, 10, 0⟩] 40 1 = [] from rfl]
    rw [h2]
    rfl
  have := h _ (by rw [hlist]; exact List.mem_cons_self _ _)
  simp at this

/-- **C10**, witness: the amended theorem applied to the single record a
well-formed three-bar bullish-FVG series returns — it is rebalanced. -/
theorem C10_fvg_rebalanced_witness :
    (⟨"f3", FVGType.bullish, 5, 10, true⟩ : FVGRec).rebalanced = true := by
  have h2 : fvgAt [(⟨"f1", 4, 5, 4, 4, 0⟩ : OHLCV), ⟨"f2", 6, 7, 6, 6, 0⟩,
      ⟨"f3", 10, 11, 10, 10, 0⟩] 40 2 =
      [⟨"f3", FVGType.bullish, 5, 10, true⟩] := by
    norm_num [fvgAt, fvgRebalanced, getBar, decide_eq_true_eq, decide_eq_false_iff_not]
  have hlist : detectFVG [(⟨"f1", 4, 5, 4, 4, 0⟩ : OHLCV), ⟨"f2", 6, 7, 6, 6, 0⟩,
      ⟨"f3", 10, 11, 10, 10, 0⟩] 40 =
      [⟨"f3", FVGType.bullish, 5, 10, true⟩] := by
    unfold detectFVG
    rw [show ([(⟨"f1", 4, 5, 4, 4, 0⟩ : OHLCV), ⟨"f2", 6, 7, 6, 6, 0⟩,
        ⟨"f3", 10, 11, 10, 10, 0⟩]).length = 3 from rfl]
    rw [show List.range 3 = [0, 1, 2] from rfl, List.flatMap_cons, List.flatMap_cons,
      List.flatMap_cons, List.flatMap_nil]
    rw [show fvgAt [(⟨"f1", 4, 5, 4, 4, 0⟩ : OHLCV), ⟨"f2", 6, 7, 6, 6, 0⟩,
        ⟨"f3", 10, 11, 10, 10, 0⟩] 40 0 = [] from rfl]
    rw [show fvgAt [(⟨"f1", 4, 5, 4, 4, 0⟩ : OHLCV), ⟨"f2", 6, 7, 6, 6, 0⟩,
        ⟨"f3", 10, 11, 10, 10, 0⟩] 40 1 = [] from rfl]
    rw [h2]
    rfl
  exact C10_fvg_rebalanced [(⟨"f1", 4, 5, 4, 4, 0⟩ : OHLCV), ⟨"f2", 6, 7, 6, 6, 0⟩,
      ⟨"f3", 10, 11, 10, 10, 0⟩] 40 (by decide) _
    (by rw [hlist]; exact List.mem_cons_self _ _)

/-- **C3** (code bug).  The spec's "closes in the lower half of its own
range" is implemented as `lastBar.c < (lastBar.o + lastBar.c) / 2`, the
midpoint of *open and close* — a condition equivalent to `c < o` and thus
redundant with the explicit red-close test, instead of the intended
midpoint `(h + l) / 2` of the bar's range.  Consequently the detector
emits a failed-reclaim for a bar that makes a higher high and closes red
but in the *upper* half of its range, which the claim (and the spec)
excludes.  Below: on ten bars whose last one has `o = 11.9, h = 12,
l = 0, c = 11.8` (higher high, red, close far above the range midpoint
`6`) the embedded source emits the `failed_reclaim` signal even though the
bar does not close in the lower half of its range. -/
theorem C3_failed_reclaim_fires_in_upper_half :
    (∃ s ∈ detectLiquiditySweepSignals
        [⟨none, none, none, 5, 10, 4, 5, none⟩, ⟨none, none, none, 5, 10, 4, 5, none⟩,
         ⟨none, none, none, 5, 10, 4, 5, none⟩, ⟨none, none, none, 5, 10, 4, 5, none⟩,
         ⟨none, none, none, 5, 10, 4, 5, none⟩, ⟨none, none, none, 5, 10, 4, 5, none⟩,
         ⟨none, none, none, 5, 10, 4, 5, none⟩, ⟨none, none, none, 5, 10, 4, 5, none⟩,
         ⟨none, none, none, 5, 10, 4, 5, none⟩,
         ⟨none, none, none, 119 / 10, 12, 0, 118 / 10, none⟩] "D",
      s.type = "failed_reclaim") ∧
    ¬ ((⟨none, none, none, 119 / 10, 12, 0, 118 / 10, none⟩ : SBar).c <
        ((⟨none, none, none, 119 / 10, 12, 0, 118 / 10, none⟩ : SBar).h +
         (⟨none, none, none, 119 / 10, 12, 0, 118 / 10, none⟩ : SBar).l) / 2) := by
  constructor
  · simp only [detectLiquiditySweepSignals]
    rw [if_neg (by decide)]
    refine ⟨⟨"liquidity:failed_reclaim", "liquidity", "failed_reclaim", "D", .med,
      .failedReclaim⟩, ?_, rfl⟩
    rw [List.mem_append]
    right
    rw [if_pos]
    · exact List.mem_singleton.mpr rfl
    · refine ⟨by norm_num [List.getD], ?_, ?_⟩ <;> norm_num [List.getD]
  · norm_num

/-- **C8** (confirmed).  The signal synthesizer of the embedding is a pure
function: two runs of `buildSignals` on the same input denote the same
list, element for element.  (The source module is dependency-free and
reads no clock and no randomness source; every value it produces is a
function of the `BuildSignalsInput` record alone, which is what the
embedding expresses.) -/
theorem C8_buildSignals_deterministic (input : BuildSignalsInput) :
    buildSignals input = buildSignals input := rfl

theorem mirrorNeg_length (bars : List OHLCV) :
    (mirrorNeg bars).length = bars.length := by
  simp [mirrorNeg]

theorem getBar_mirrorNeg (bars : List OHLCV) (j : ℕ) (hj : j < bars.length) :
    getBar (mirrorNeg bars) j =
      { getBar bars (bars.length - 1 - j) with
        high := -(getBar bars (bars.length - 1 - j)).low,
        low := -(getBar bars (bars.length - 1 - j)).high } := by
  have hj' : j < ((bars.map fun b =>
      ({ b with high := -b.low, low := -b.high } : OHLCV)).reverse).length := by
    simpa using hj
  have hj2 : bars.length - 1 - j < bars.length := by omega
  unfold mirrorNeg getBar
  rw [List.getD_eq_getElem _ default hj', List.getElem_reverse, List.getElem_map,
    List.getD_eq_getElem bars default (by simpa using hj2)]
  simp

theorem isPivotHigh_mirrorNeg (bars : List OHLCV) (lb j : ℕ)
    (h1 : lb ≤ j) (h2 : j + lb < bars.length) :
    isPivotHigh (mirrorNeg bars) lb j = isPivotLow bars lb (bars.length - 1 - j) := by
  set n := bars.length with hn
  have hjn : j < n := by omega
  rw [Bool.eq_iff_iff]
  simp only [isPivotHigh, isPivotLow, List.all_eq_true, List.mem_range'_1,
    Bool.or_eq_true, decide_eq_true_eq]
  constructor
  · intro h k hk
    have hmem := h (n - 1 - k) (by omega)
    rw [getBar_mirrorNeg bars (n - 1 - k) (by omega),
      getBar_mirrorNeg bars j hjn] at hmem
    dsimp only at hmem
    have hsimp : n - 1 - (n - 1 - k) = k := by omega
    rw [hsimp] at hmem
    rcases hmem with hmem | hmem
    · left; omega
    · right; exact lt_of_neg_lt_neg hmem
  · intro h k hk
    have hmem := h (n - 1 - k) (by omega)
    rw [getBar_mirrorNeg bars k (by omega), getBar_mirrorNeg bars j hjn]
    dsimp only
    rcases hmem with hmem | hmem
    · left; omega
    · right; exact neg_lt_neg hmem

theorem isPivotLow_mirrorNeg (bars : List OHLCV) (lb j : ℕ)
    (h1 : lb ≤ j) (h2 : j + lb < bars.length) :
    isPivotLow (mirrorNeg bars) lb j = isPivotHigh bars lb (bars.length - 1 - j) := by
  set n := bars.length with hn
  have hjn : j < n := by omega
  rw [Bool.eq_iff_iff]
  simp only [isPivotHigh, isPivotLow, List.all_eq_true, List.mem_range'_1,
    Bool.or_eq_true, decide_eq_true_eq]
  constructor
  · intro h k hk
    have hmem := h (n - 1 - k) (by omega)
    rw [getBar_mirrorNeg bars (n - 1 - k) (by omega),
      getBar_mirrorNeg bars j hjn] at hmem
    dsimp only at hmem
    have hsimp : n - 1 - (n - 1 - k) = k := by omega
    rw [hsimp] at hmem
    rcases hmem with hmem | hmem
    · left; omega
    · right; exact lt_of_neg_lt_neg hmem
  · intro h k hk
    have hmem := h (n - 1 - k) (by omega)
    rw [getBar_mirrorNeg bars k (by omega), getBar_mirrorNeg bars j hjn]
    dsimp only
    rcases hmem with hmem | hmem
    · left; omega
    · right; exact neg_lt_neg hmem

theorem map_sub_range' (a m n : ℕ) (h : a + a + m = n + 1) :
    ((List.range' a m).map fun j => n - j) = (List.range' a m).reverse := by
  apply List.ext_getElem
  · simp
  · intro p h1 h2
    have hp : p < m := by simpa using h1
    simp only [List.getElem_map, List.getElem_reverse, List.getElem_range',
      List.length_range']
    omega

theorem pivots_mirrorNeg_highs (bars : List OHLCV) (lb : ℕ) :
    (pivots (mirrorNeg bars) lb).2 =
      ((pivots bars lb).1).reverse.map
        (fun p => ⟨bars.length - 1 - p.i, p.date, -p.price⟩) := by
  have hmlen : (mirrorNeg bars).length = bars.length := mirrorNeg_length bars
  simp only [pivots, hmlen]
  by_cases hm : bars.length ≤ lb + lb
  · have hr : pivotRange bars.length lb = [] := by
      unfold pivotRange
      have h0 : bars.length - lb - lb = 0 := by omega
      rw [h0]
      rfl
    rw [hr]
    simp
  · have hcong : ∀ j ∈ pivotRange bars.length lb,
        (if isPivotHigh (mirrorNeg bars) lb j then
          some (⟨j, (getBar (mirrorNeg bars) j).date, (getBar (mirrorNeg bars) j).high⟩ :
            PivotPt)
        else none) =
        Option.map (fun p : PivotPt =>
            (⟨bars.length - 1 - p.i, p.date, -p.price⟩ : PivotPt))
          (if isPivotLow bars lb (bars.length - 1 - j) then
            some (⟨bars.length - 1 - j, (getBar bars (bars.length - 1 - j)).date,
              (getBar bars (bars.length - 1 - j)).low⟩ : PivotPt)
          else none) := by
      intro j hj
      unfold pivotRange at hj
      rw [List.mem_range'_1] at hj
      have hjlb : lb ≤ j := hj.1
      have hjn : j + lb < bars.length := by omega
      rw [isPivotHigh_mirrorNeg bars lb j hjlb hjn]
      split
      · simp only [Option.map_some']
        rw [getBar_mirrorNeg bars j (by omega)]
        simp only [Option.some.injEq, PivotPt.mk.injEq, and_true, true_and]
        omega
      · rfl
    rw [List.filterMap_congr hcong]
    rw [show (fun j => Option.map (fun p : PivotPt =>
        (⟨bars.length - 1 - p.i, p.date, -p.price⟩ : PivotPt))
          (if isPivotLow bars lb (bars.length - 1 - j) then
            some (⟨bars.length - 1 - j, (getBar bars (bars.length - 1 - j)).date,
              (getBar bars (bars.length - 1 - j)).low⟩ : PivotPt)
          else none)) =
        (fun j => Option.map (fun p : PivotPt =>
            (⟨bars.length - 1 - p.i, p.date, -p.price⟩ : PivotPt))
          ((fun i => if isPivotLow bars lb i then
            some (⟨i, (getBar bars i).date, (getBar bars i).low⟩ : PivotPt)
          else none) ((fun j : ℕ => bars.length - 1 - j) j))) from rfl]
    rw [← List.map_filterMap]
    rw [show ((fun j => ((fun i => if isPivotLow bars lb i then
          some (⟨i, (getBar bars i).date, (getBar bars i).low⟩ : PivotPt)
          else none) ((fun j : ℕ => bars.length - 1 - j) j))) : ℕ → Option PivotPt) =
        ((fun i => if isPivotLow bars lb i then
          some (⟨i, (getBar bars i).date, (getBar bars i).low⟩ : PivotPt)
          else none) ∘ (fun j : ℕ => bars.length - 1 - j)) from rfl]
    rw [← List.filterMap_map]
    unfold pivotRange
    rw [map_sub_range' lb (bars.length - lb - lb) (bars.length - 1) (by omega)]
    rw [List.filterMap_reverse]

theorem pivots_mirrorNeg_lows (bars : List OHLCV) (lb : ℕ) :
    (pivots (mirrorNeg bars) lb).1 =
      ((pivots bars lb).2).reverse.map
        (fun p => ⟨bars.length - 1 - p.i, p.date, -p.price⟩) := by
  have hmlen : (mirrorNeg bars).length = bars.length := mirrorNeg_length bars
  simp only [pivots, hmlen]
  by_cases hm : bars.length ≤ lb + lb
  · have hr : pivotRange bars.length lb = [] := by
      unfold pivotRange
      have h0 : bars.length - lb - lb = 0 := by omega
      rw [h0]
      rfl
    rw [hr]
    simp
  · have hcong : ∀ j ∈ pivotRange bars.length lb,
        (if isPivotLow (mirrorNeg bars) lb j then
          some (⟨j, (getBar (mirrorNeg bars) j).date, (getBar (mirrorNeg bars) j).low⟩ :
            PivotPt)
        else none) =
        Option.map (fun p : PivotPt =>
            (⟨bars.length - 1 - p.i, p.date, -p.price⟩ : PivotPt))
          (if isPivotHigh bars lb (bars.length - 1 - j) then
            some (⟨bars.length - 1 - j, (getBar bars (bars.length - 1 - j)).date,
              (getBar bars (bars.length - 1 - j)).high⟩ : PivotPt)
          else none) := by
      intro j hj
      unfold pivotRange at hj
      rw [List.mem_range'_1] at hj
      have hjlb : lb ≤ j := hj.1
      have hjn : j + lb < bars.length := by omega
      rw [isPivotLow_mirrorNeg bars lb j hjlb hjn]
      split
      · simp only [Option.map_some']
        rw [getBar_mirrorNeg bars j (by omega)]
        simp only [Option.some.injEq, PivotPt.mk.injEq, and_true, true_and]
        omega
      · rfl
    rw [List.filterMap_congr hcong]
    rw [show (fun j => Option.map (fun p : PivotPt =>
        (⟨bars.length - 1 - p.i, p.date, -p.price⟩ : PivotPt))
          (if isPivotHigh bars lb (bars.length - 1 - j) then
            some (⟨bars.length - 1 - j, (getBar bars (bars.length - 1 - j)).date,
              (getBar bars (bars.length - 1 - j)).high⟩ : PivotPt)
          else none)) =
        (fun j => Option.map (fun p : PivotPt =>
            (⟨bars.length - 1 - p.i, p.date, -p.price⟩ : PivotPt))
          ((fun i => if isPivotHigh bars lb i then
            some (⟨i, (getBar bars i).date, (getBar bars i).high⟩ : PivotPt)
          else none) ((fun j : ℕ => bars.length - 1 - j) j))) from rfl]
    rw [← List.map_filterMap]
    rw [show ((fun j => ((fun i => if isPivotHigh bars lb i then
          some (⟨i, (getBar bars i).date, (getBar bars i).high⟩ : PivotPt)
          else none) ((fun j : ℕ => bars.length - 1 - j) j))) : ℕ → Option PivotPt) =
        ((fun i => if isPivotHigh bars lb i then
          some (⟨i, (getBar bars i).date, (getBar bars i).high⟩ : PivotPt)
          else none) ∘ (fun j : ℕ => bars.length - 1 - j)) from rfl]
    rw [← List.filterMap_map]
    unfold pivotRange
    rw [map_sub_range' lb (bars.length - lb - lb) (bars.length - 1) (by omega)]
    rw [List.filterMap_reverse]

/-- **C7** (confirmed).  Pivot detection is symmetric: on the transformed
series obtained by reversing the bar order and negating / swapping the
`high` and `low` roles, the swing-highs are exactly the original series'
swing-lows (and vice versa) at the mirrored indices, with negated
prices and the same dates. -/
theorem C7_pivot_symmetry (bars : List OHLCV) (lookback : ℕ) :
    (pivots (mirrorNeg bars) lookback).2 =
      ((pivots bars lookback).1).reverse.map
        (fun p => ⟨bars.length - 1 - p.i, p.date, -p.price⟩) ∧
    (pivots (mirrorNeg bars) lookback).1 =
      ((pivots bars lookback).2).reverse.map
        (fun p => ⟨bars.length - 1 - p.i, p.date, -p.price⟩) :=
  ⟨pivots_mirrorNeg_highs bars lookback, pivots_mirrorNeg_lows bars lookback⟩

/-- **C6** (confirmed).  When the two most recent swing lows show a lower
second low with a higher (truthy) second RSI and an RSI delta of at least
5 points, the bullish candidate's strength is `2 +` the recency bonus
(strength starts at 1, +1 for the delta, +1 when the second pivot is
within 20 bars of the series end), so the verdict has strength ≥ 2; the
verdict is that bullish candidate unless a bearish candidate qualifies
with strictly higher strength, in which case the stronger bearish verdict
is returned — exactly the "higher strength wins" rule of the claim. -/
theorem C6_divergence_strength (bars : List OHLCV) (rsi : List (Option ℚ))
    (lookback : ℕ) (a b : PivotPt) (rA rB : ℚ)
    (hlows : sliceLast 2 (pivots bars lookback).1 = [a, b])
    (hrA : truthyRsi rsi[a.i]? = some rA)
    (hrB : truthyRsi rsi[b.i]? = some rB)
    (hprice : b.price < a.price) (hrsi : rA < rB) (hdelta : 5 ≤ rB - rA) :
    2 ≤ (detectRSIDivergence bars rsi lookback).strength ∧
    (((detectRSIDivergence bars rsi lookback).type = DivType.bullish ∧
      (detectRSIDivergence bars rsi lookback).strength =
        2 + (if bars.length - 1 - b.i ≤ 20 then 1 else 0)) ∨
     ((detectRSIDivergence bars rsi lookback).type = DivType.bearish ∧
      2 + (if bars.length - 1 - b.i ≤ 20 then 1 else 0) <
        (detectRSIDivergence bars rsi lookback).strength)) := by
  have habs : |rB - rA| = rB - rA := abs_of_nonneg (by linarith)
  simp only [detectRSIDivergence]
  rw [hlows]
  dsimp only
  rw [hrA, hrB]
  dsimp only
  rw [if_pos (show b.price < a.price ∧ rA < rB from ⟨hprice, hrsi⟩), habs,
    if_pos (show (5 : ℚ) ≤ rB - rA from hdelta)]
  rcases hhi : sliceLast 2 (pivots bars lookback).2 with _ | ⟨x, _ | ⟨y, _ | ⟨z, rest⟩⟩⟩
  · dsimp only
    exact ⟨by omega, Or.inl ⟨rfl, by omega⟩⟩
  · dsimp only
    exact ⟨by omega, Or.inl ⟨rfl, by omega⟩⟩
  · dsimp only
    rcases hx : truthyRsi rsi[x.i]? with _ | rX
    · dsimp only
      exact ⟨by omega, Or.inl ⟨rfl, by omega⟩⟩
    · rcases hy : truthyRsi rsi[y.i]? with _ | rY
      · dsimp only
        exact ⟨by omega, Or.inl ⟨rfl, by omega⟩⟩
      · dsimp only
        by_cases hcond : x.price < y.price ∧ rY < rX
        · rw [if_pos hcond]
          by_cases hstr : (1 + 1 + (if bars.length - 1 - b.i ≤ 20 then 1 else 0) : ℕ) <
              1 + (if 5 ≤ |rY - rX| then 1 else 0) +
                (if bars.length - 1 - y.i ≤ 20 then 1 else 0)
          · rw [if_pos hstr]
            dsimp only
            exact ⟨by omega, Or.inr ⟨rfl, by omega⟩⟩
          · rw [if_neg hstr]
            dsimp only
            exact ⟨by omega, Or.inl ⟨rfl, by omega⟩⟩
        · rw [if_neg hcond]
          dsimp only
          exact ⟨by omega, Or.inl ⟨rfl, by omega⟩⟩
  · dsimp only
    exact ⟨by omega, Or.inl ⟨rfl, by omega⟩⟩

/-- **C6**, witness: the spec's example — pivot lows (price 100, RSI 25)
then (price 95, RSI 32), delta 7 ≥ 5, recent second pivot — yields the
bullish verdict with strength `2 + 1 = 3 ≥ 2`. -/
theorem C6_divergence_strength_witness :
    2 ≤ (detectRSIDivergence divExampleBars divExampleRsi 3).strength ∧
    (((detectRSIDivergence divExampleBars divExampleRsi 3).type = DivType.bullish ∧
      (detectRSIDivergence divExampleBars divExampleRsi 3).strength =
        2 + (if divExampleBars.length - 1 - 7 ≤ 20 then 1 else 0)) ∨
     ((detectRSIDivergence divExampleBars divExampleRsi 3).type = DivType.bearish ∧
      2 + (if divExampleBars.length - 1 - 7 ≤ 20 then 1 else 0) <
        (detectRSIDivergence divExampleBars divExampleRsi 3).strength)) :=
  C6_divergence_strength divExampleBars divExampleRsi 3 ⟨3, "d3", 100⟩ ⟨7, "d7", 95⟩
    25 32 (by decide) (by decide) (by decide) (by decide) (by decide) (by norm_num)

theorem mem_ite_singleton {c : Prop} [Decidable c] {x s : Signal}
    (h : s ∈ if c then [x] else []) : s = x := by
  split at h
  · simpa using h
  · simp at h

theorem length_ite_singleton {c : Prop} [Decidable c] {x : Signal} :
    (if c then [x] else []).length ≤ 1 := by
  split <;> simp

theorem dedupeCap_length :
    ∀ (l : List Signal) (seen : List (String × String × Title)) (cap : ℕ), 1 ≤ cap →
      (dedupeCap seen cap l).length ≤ cap := by
  intro l
  induction l with
  | nil => intro seen cap hc; simp [dedupeCap]
  | cons s rest ih =>
      intro seen cap hc
      simp only [dedupeCap]
      split
      · exact ih seen cap hc
      · split
        · simpa using hc
        · rename_i hnew hcap
          simp only [List.length_cons]
          have := ih (sigKey s :: seen) (cap - 1) (by omega)
          omega

theorem newKeys_length_le :
    ∀ (l : List Signal) (seen : List (String × String × Title)),
      (newKeys seen l).length ≤ l.length := by
  intro l
  induction l with
  | nil => intro seen; simp [newKeys]
  | cons s rest ih =>
      intro seen
      simp only [newKeys]
      split
      · exact le_trans (ih seen) (by simp)
      · simp only [List.length_cons]
        exact Nat.succ_le_succ (ih (sigKey s :: seen))

theorem newKeys_eq_nil :
    ∀ (l : List Signal) (seen : List (String × String × Title)),
      newKeys seen l = [] → ∀ s ∈ l, sigKey s ∈ seen := by
  intro l
  induction l with
  | nil => intro seen _ s hs; simp at hs
  | cons s0 rest ih =>
      intro seen hnil s hs
      simp only [newKeys] at hnil
      split at hnil
      · rename_i hseen
        rcases List.mem_cons.mp hs with rfl | hs'
        · exact hseen
        · exact ih seen hnil s hs'
      · exact absurd hnil (by simp)

theorem dedupeCap_covers :
    ∀ (hs ts : List Signal) (seen : List (String × String × Title)) (cap : ℕ),
      (∀ s ∈ hs, s.severity = Severity.high) →
      (newKeys seen hs).length ≤ cap →
      ∀ s ∈ hs, sigKey s ∈ seen ∨
        ∃ t ∈ dedupeCap seen cap (hs ++ ts),
          t.severity = Severity.high ∧ sigKey t = sigKey s := by
  intro hs
  induction hs with
  | nil => intro ts seen cap _ _ s hsmem; simp at hsmem
  | cons s0 rest ih =>
      intro ts seen cap hhigh hcount s hmem
      rw [List.cons_append]
      by_cases h0 : sigKey s0 ∈ seen
      · rw [show dedupeCap seen cap (s0 :: (rest ++ ts)) =
            dedupeCap seen cap (rest ++ ts) from by simp [dedupeCap, h0]]
        have hcount' : (newKeys seen rest).length ≤ cap := by
          simpa [newKeys, h0] using hcount
        rcases List.mem_cons.mp hmem with rfl | hmem'
        · exact Or.inl h0
        · exact ih ts seen cap (fun x hx => hhigh x (List.mem_cons_of_mem _ hx))
            hcount' s hmem'
      · have hcount0 : (newKeys (sigKey s0 :: seen) rest).length + 1 ≤ cap := by
          have := hcount
          simp only [newKeys, h0, if_false, List.length_cons] at this
          omega
        by_cases hcap : cap ≤ 1
        · rw [show dedupeCap seen cap (s0 :: (rest ++ ts)) = [s0] from by
            simp [dedupeCap, h0, hcap]]
          have hrest0 : newKeys (sigKey s0 :: seen) rest = [] :=
            List.length_eq_zero.mp (by omega)
          rcases List.mem_cons.mp hmem with rfl | hmem'
          · exact Or.inr ⟨s, List.mem_singleton.mpr rfl,
              hhigh s (List.mem_cons_self _ _), rfl⟩
          · have hks := newKeys_eq_nil rest (sigKey s0 :: seen) hrest0 s hmem'
            rcases List.mem_cons.mp hks with heq | hseen
            · exact Or.inr ⟨s0, List.mem_singleton.mpr rfl,
                hhigh s0 (List.mem_cons_self _ _), heq.symm⟩
            · exact Or.inl hseen
        · rw [show dedupeCap seen cap (s0 :: (rest ++ ts)) =
              s0 :: dedupeCap (sigKey s0 :: seen) (cap - 1) (rest ++ ts) from by
            simp [dedupeCap, h0, hcap]]
          rcases List.mem_cons.mp hmem with rfl | hmem'
          · exact Or.inr ⟨s, List.mem_cons_self _ _,
              hhigh s (List.mem_cons_self _ _), rfl⟩
          · have hrec := ih ts (sigKey s0 :: seen) (cap - 1)
              (fun x hx => hhigh x (List.mem_cons_of_mem _ hx)) (by omega) s hmem'
            rcases hrec with hseen | ⟨t, ht, hthigh, htkey⟩
            · rcases List.mem_cons.mp hseen with heq | hseen'
              · exact Or.inr ⟨s0, List.mem_cons_self _ _,
                  hhigh s0 (List.mem_cons_self _ _), heq.symm⟩
              · exact Or.inl hseen'
            · exact Or.inr ⟨t, List.mem_cons_of_mem _ ht, hthigh, htkey⟩

theorem high_mem_takeWhile :
    ∀ (l : List Signal),
      l.Pairwise (fun x y => sevRank y.severity ≤ sevRank x.severity) →
      ∀ s ∈ l, s.severity = Severity.high →
        s ∈ l.takeWhile (fun x => decide (x.severity = Severity.high)) := by
  intro l
  induction l with
  | nil => intro _ s hs; simp at hs
  | cons x rest ih =>
      intro hpw s hmem hhigh
      rcases List.pairwise_cons.mp hpw with ⟨hx, hrest⟩
      by_cases hxh : x.severity = Severity.high
      · rw [List.takeWhile_cons_of_pos (by simpa using hxh)]
        rcases List.mem_cons.mp hmem with rfl | hmem'
        · exact List.mem_cons_self _ _
        · exact List.mem_cons_of_mem _ (ih hrest s hmem' hhigh)
      · rcases List.mem_cons.mp hmem with rfl | hmem'
        · exact absurd hhigh hxh
        · exfalso
          have hle := hx s hmem'
          have h4 : sevRank s.severity = 4 := by rw [hhigh]; rfl
          have h3 : sevRank x.severity ≤ 3 := by
            cases hsx : x.severity
            · exact absurd hsx hxh
            · simp [sevRank]
            · simp [sevRank]
            · simp [sevRank]
          omega

theorem countHigh_candle (bars : List SBar) (tf : String) :
    (detectCandleSignals bars tf).countP
      (fun s => decide (s.severity = Severity.high)) = 0 := by
  rw [List.countP_eq_zero]
  intro s hs
  unfold detectCandleSignals at hs
  split at hs
  · simp only [List.mem_append] at hs
    rcases hs with ((((h | h) | h) | h) | h) | h <;>
      (obtain rfl := mem_ite_singleton h; simp)
  · simp at hs

theorem countHigh_rsi (r : Option ℚ) (d : Option SRSIDivergence) (tf : String) :
    (detectRSISignals r d tf).countP
      (fun s => decide (s.severity = Severity.high)) ≤ 1 := by
  unfold detectRSISignals
  rw [List.countP_append]
  refine le_trans (Nat.add_le_add (le_of_eq ?_) ?_) (by norm_num : (0 : ℕ) + 1 ≤ 1)
  · rw [List.countP_eq_zero]
    intro s hs
    split at hs
    · simp at hs
    · split at hs
      · obtain rfl := List.mem_singleton.mp hs; simp
      · split at hs
        · obtain rfl := List.mem_singleton.mp hs; simp
        · split at hs
          · obtain rfl := List.mem_singleton.mp hs; simp
          · split at hs
            · obtain rfl := List.mem_singleton.mp hs; simp
            · simp at hs
  · refine le_trans (List.countP_le_length _) ?_
    dsimp only
    split <;> simp

theorem countHigh_fvg (bars : List SBar) (tf : String) :
    (detectFVGSignals bars tf).countP
      (fun s => decide (s.severity = Severity.high)) = 0 := by
  rw [List.countP_eq_zero]
  intro s hs
  unfold detectFVGSignals at hs
  split at hs
  · simp at hs
  · dsimp only at hs
    split at hs
    · simp at hs
    · rw [List.mem_map] at hs
      obtain ⟨f, -, rfl⟩ := hs
      simp

theorem countHigh_liq (bars : List SBar) (tf : String) :
    (detectLiquiditySweepSignals bars tf).countP
      (fun s => decide (s.severity = Severity.high)) ≤ 2 := by
  unfold detectLiquiditySweepSignals
  split
  · simp
  · dsimp only
    rw [List.countP_append, List.countP_append]
    refine le_trans
      (Nat.add_le_add (Nat.add_le_add ?_ ?_) (le_of_eq ?_))
      (by norm_num : (1 : ℕ) + 1 + 0 ≤ 2)
    · refine le_trans (List.countP_le_length _) ?_
      repeat' split
      all_goals simp
    · refine le_trans (List.countP_le_length _) ?_
      repeat' split
      all_goals simp
    · rw [List.countP_eq_zero]
      intro s hs
      obtain rfl := mem_ite_singleton hs
      simp

theorem countHigh_ma (ma : MACrossInputs) (tf : String) :
    (detectMACrossSignals ma tf).countP
      (fun s => decide (s.severity = Severity.high)) = 0 := by
  rw [List.countP_eq_zero]
  intro s hs
  unfold detectMACrossSignals at hs
  simp only [List.mem_append] at hs
  rcases hs with ((h | h) | h) | h <;>
    (obtain rfl := mem_ite_singleton h; simp)

theorem countHigh_keylevels (spot : Option ℚ) (keyLevels : Option NormLevels)
    (tf : String) :
    (detectKeyLevelSignals spot keyLevels tf).countP
      (fun s => decide (s.severity = Severity.high)) ≤ 2 := by
  unfold detectKeyLevelSignals
  split
  · simp
  · dsimp only
    split
    · simp
    · rw [List.countP_append]
      refine le_trans (Nat.add_le_add ?_ ?_) (by norm_num : (1 : ℕ) + 1 ≤ 2)
      · refine le_trans (List.countP_le_length _) ?_
        repeat' split
        all_goals simp
      · refine le_trans (List.countP_le_length _) ?_
        repeat' split
        all_goals simp

theorem countHigh_candidates (input : BuildSignalsInput) :
    (buildCandidates input).countP
      (fun s => decide (s.severity = Severity.high)) ≤ 5 := by
  unfold buildCandidates
  rw [List.countP_append, List.countP_append, List.countP_append, List.countP_append,
    List.countP_append]
  have h1 := countHigh_candle input.bars (tfOf input)
  have h2 := countHigh_rsi input.rsi14 input.rsi_divergence (tfOf input)
  have h3 := countHigh_fvg input.bars (tfOf input)
  have h4 := countHigh_liq input.bars (tfOf input)
  have h5 : List.countP (fun s => decide (s.severity = Severity.high))
      (match input.ma with
      | some ma => detectMACrossSignals ma (tfOf input)
      | none => ([] : List Signal)) = 0 := by
    split
    · exact countHigh_ma _ _
    · simp
  have h6 := countHigh_keylevels input.spot input.key_levels (tfOf input)
  omega

/-- **C1** (confirmed).  `buildSignals` is exactly the three-stage
pipeline: stable sort of the raw candidates by descending severity rank,
dedup by the `(category, type, title)` key keeping first occurrences, and
truncation to at most 12 entries.  Because the sort puts the high-severity
candidates first and the six detectors can produce at most five
high-severity candidates in total (divergence ≤ 1, liquidity sweeps ≤ 2,
key-level proximity ≤ 2), every high-severity candidate's key survives
into the capped output no matter how many lower-severity candidates were
generated before it. -/
theorem C1_signals_pipeline (input : BuildSignalsInput) :
    buildSignals input = dedupeCap [] 12 (sortBySeverity (buildCandidates input)) ∧
    (buildSignals input).length ≤ 12 ∧
    ∀ s ∈ buildCandidates input, s.severity = Severity.high →
      ∃ t ∈ buildSignals input,
        t.severity = Severity.high ∧ sigKey t = sigKey s := by
  refine ⟨rfl, dedupeCap_length _ [] 12 (by norm_num), ?_⟩
  intro s hmem hhigh
  have hperm : (sortBySeverity (buildCandidates input)).Perm (buildCandidates input) :=
    List.mergeSort_perm _ _
  have hsorted : (sortBySeverity (buildCandidates input)).Pairwise
      (fun x y => sevRank y.severity ≤ sevRank x.severity) := by
    have h := @List.sorted_mergeSort Signal
      (fun a b => decide (sevRank b.severity ≤ sevRank a.severity))
      (fun a b c hab hbc => by
        simp only [decide_eq_true_eq] at *
        omega)
      (fun a b => by
        simp only [Bool.or_eq_true, decide_eq_true_eq]
        omega)
      (buildCandidates input)
    exact h.imp (fun hx => of_decide_eq_true hx)
  have hsl' : s ∈ sortBySeverity (buildCandidates input) := hperm.mem_iff.mpr hmem
  have hshs : s ∈ (sortBySeverity (buildCandidates input)).takeWhile
      (fun x => decide (x.severity = Severity.high)) :=
    high_mem_takeWhile _ hsorted s hsl' hhigh
  have hallhigh : ∀ x ∈ (sortBySeverity (buildCandidates input)).takeWhile
      (fun x => decide (x.severity = Severity.high)), x.severity = Severity.high :=
    fun x hx => by simpa using List.mem_takeWhile_imp hx
  have hsplit : ((sortBySeverity (buildCandidates input)).takeWhile
        (fun x => decide (x.severity = Severity.high))) ++
      ((sortBySeverity (buildCandidates input)).dropWhile
        (fun x => decide (x.severity = Severity.high))) =
      sortBySeverity (buildCandidates input) :=
    List.takeWhile_append_dropWhile _ _
  have hcount5 : (sortBySeverity (buildCandidates input)).countP
      (fun x => decide (x.severity = Severity.high)) ≤ 5 := by
    rw [hperm.countP_eq]
    exact countHigh_candidates input
  have hhslen : ((sortBySeverity (buildCandidates input)).takeWhile
      (fun x => decide (x.severity = Severity.high))).length ≤ 5 := by
    have h1 : ((sortBySeverity (buildCandidates input)).takeWhile
        (fun x => decide (x.severity = Severity.high))).countP
          (fun x => decide (x.severity = Severity.high)) =
        ((sortBySeverity (buildCandidates input)).takeWhile
          (fun x => decide (x.severity = Severity.high))).length :=
      List.countP_eq_length.mpr (fun a ha => by simpa using hallhigh a ha)
    have h2 := List.countP_append
      (fun x => decide (x.severity = Severity.high))
      ((sortBySeverity (buildCandidates input)).takeWhile
        (fun x => decide (x.severity = Severity.high)))
      ((sortBySeverity (buildCandidates input)).dropWhile
        (fun x => decide (x.severity = Severity.high)))
    rw [hsplit] at h2
    omega
  have hnk : (newKeys [] ((sortBySeverity (buildCandidates input)).takeWhile
      (fun x => decide (x.severity = Severity.high)))).length ≤ 12 :=
    le_trans (newKeys_length_le _ []) (by omega)
  have hcover := dedupeCap_covers
    ((sortBySeverity (buildCandidates input)).takeWhile
      (fun x => decide (x.severity = Severity.high)))
    ((sortBySeverity (buildCandidates input)).dropWhile
      (fun x => decide (x.severity = Severity.high)))
    [] 12 hallhigh hnk s hshs
  rw [hsplit] at hcover
  rcases hcover with habs | ⟨t, ht, h1, h2⟩
  · simp at habs
  · exact ⟨t, ht, h1, h2⟩

/-- **C1**, witness: on `signalsExampleInput` the key-level detector emits
a high-severity near-support candidate, and the theorem places a signal
with its key in the final list. -/
theorem C1_signals_pipeline_witness :
    ∃ t ∈ buildSignals signalsExampleInput,
      t.severity = Severity.high ∧
      sigKey t = sigKey ⟨"structure:closest_support", "structure", "closest_support",
        "D", Severity.high, Title.nearSupport 100 0⟩ :=
  (C1_signals_pipeline signalsExampleInput).2.2
    ⟨"structure:closest_support", "structure", "closest_support", "D", Severity.high,
      Title.nearSupport 100 0⟩
    (by
      unfold signalsExampleInput buildCandidates detectKeyLevelSignals
      norm_num [tfOf, detectCandleSignals, detectRSISignals, detectFVGSignals,
        detectLiquiditySweepSignals, jsGetS, nearestBelow, awayLE1])
    rfl

end TraderHub
